import Mathlib

/-!
Verification development for the App-Store-Scraper repository.

Each Python source file that the claims touch is embedded as a Lean
namespace of executable definitions, translated from the source:

* Sha256          : the SHA-256 digest (hashlib.sha256, as called by
                    src/crawl-service/main.py for review identity)
* MainApp         : src/crawl-service/main.py (review pipeline merge,
                    SSRF URL validator, rate-limit middleware)
* PyReviews       : src/api/py-reviews.py (feed collector, fetch_json)
* ReviewsApi      : src/api/reviews.py (fetch_json)
* BrowserCrawler  : src/crawl-service/crawlers/app_store_browser.py
                    (_extract_reviews element processing)
* RedditCrawl     : src/crawl-service/crawlers/reddit.py (deep dive)
* RateLimiterUtil : src/crawl-service/utils/rate_limiter.py

Machine integers are modelled as Nat with explicit % 2^32 where the
source (SHA-256) wraps; Python ints are Int or Nat; floats used as
delays, multipliers and timestamps are modelled as Rat.
-/

set_option maxHeartbeats 1000000

namespace Sha256

/-- Addition modulo 2^32 (32-bit word addition). -/
def add32 (a b : Nat) : Nat := (a + b) % 2 ^ 32

/-- Right rotation of a 32-bit word by k bits. -/
def rotr (k x : Nat) : Nat := (x / 2 ^ k + x % 2 ^ k * 2 ^ (32 - k)) % 2 ^ 32

/-- Logical right shift of a 32-bit word by k bits. -/
def shr (k x : Nat) : Nat := x / 2 ^ k

/-- Bitwise complement within 32 bits. -/
def not32 (x : Nat) : Nat := x ^^^ (2 ^ 32 - 1)

/-- SHA-256 choice function. -/
def ch (x y z : Nat) : Nat := (x &&& y) ^^^ (not32 x &&& z)

/-- SHA-256 majority function. -/
def maj (x y z : Nat) : Nat := (x &&& y) ^^^ (x &&& z) ^^^ (y &&& z)

/-- SHA-256 big sigma 0. -/
def bigSigma0 (x : Nat) : Nat := rotr 2 x ^^^ rotr 13 x ^^^ rotr 22 x

/-- SHA-256 big sigma 1. -/
def bigSigma1 (x : Nat) : Nat := rotr 6 x ^^^ rotr 11 x ^^^ rotr 25 x

/-- SHA-256 small sigma 0. -/
def smallSigma0 (x : Nat) : Nat := rotr 7 x ^^^ rotr 18 x ^^^ shr 3 x

/-- SHA-256 small sigma 1. -/
def smallSigma1 (x : Nat) : Nat := rotr 17 x ^^^ rotr 19 x ^^^ shr 10 x

/-- The 64 SHA-256 round constants. -/
def K : List Nat :=
  [1116352408, 1899447441, 3049323471, 3921009573, 961987163, 1508970993,
   2453635748, 2870763221, 3624381080, 310598401, 607225278, 1426881987,
   1925078388, 2162078206, 2614888103, 3248222580, 3835390401, 4022224774,
   264347078, 604807628, 770255983, 1249150122, 1555081692, 1996064986,
   2554220882, 2821834349, 2952996808, 3210313671, 3336571891, 3584528711,
   113926993, 338241895, 666307205, 773529912, 1294757372, 1396182291,
   1695183700, 1986661051, 2177026350, 2456956037, 2730485921, 2820302411,
   3259730800, 3345764771, 3516065817, 3600352804, 4094571909, 275423344,
   430227734, 506948616, 659060556, 883997877, 958139571, 1322822218,
   1537002063, 1747873779, 1955562222, 2024104815, 2227730452, 2361852424,
   2428436474, 2756734187, 3204031479, 3329325298]

/-- Working state of the compression function: eight 32-bit words. -/
structure Hash8 where
  a : Nat
  b : Nat
  c : Nat
  d : Nat
  e : Nat
  f : Nat
  g : Nat
  h : Nat
deriving Repr, DecidableEq

/-- The SHA-256 initial hash value. -/
def initH : Hash8 :=
  ⟨1779033703, 3144134277, 1013904242, 2773480762,
   1359893119, 2600822924, 528734635, 1541459225⟩

/-- One compression round for round constant k and schedule word w. -/
def round (st : Hash8) (k w : Nat) : Hash8 :=
  let t1 := add32 st.h (add32 (bigSigma1 st.e) (add32 (ch st.e st.f st.g) (add32 k w)))
  let t2 := add32 (bigSigma0 st.a) (maj st.a st.b st.c)
  ⟨add32 t1 t2, st.a, st.b, st.c, add32 st.d t1, st.e, st.f, st.g⟩

/-- Next message-schedule word from the last 16 words (w has length at least 16). -/
def nextScheduleWord (w : List Nat) : Nat :=
  let L := w.length
  add32 (add32 (smallSigma1 (w.getD (L - 2) 0)) (w.getD (L - 7) 0))
        (add32 (smallSigma0 (w.getD (L - 15) 0)) (w.getD (L - 16) 0))

/-- Extend the 16 block words to the full 64-word message schedule. -/
def extendSchedule : Nat → List Nat → List Nat
  | 0, w => w
  | n + 1, w => extendSchedule n (w ++ [nextScheduleWord w])

/-- Combine two hash states by 32-bit wordwise addition. -/
def addState (x y : Hash8) : Hash8 :=
  ⟨add32 x.a y.a, add32 x.b y.b, add32 x.c y.c, add32 x.d y.d,
   add32 x.e y.e, add32 x.f y.f, add32 x.g y.g, add32 x.h y.h⟩

/-- Process one 512-bit block (given as 16 words) into the running hash. -/
def processBlock (h0 : Hash8) (blockWords : List Nat) : Hash8 :=
  let w := extendSchedule 48 blockWords
  let final := (K.zip w).foldl (fun st kw => round st kw.1 kw.2) h0
  addState h0 final

/-- Group a byte list into big-endian 32-bit words, four bytes per word. -/
def bytesToWords : List Nat → List Nat
  | b0 :: b1 :: b2 :: b3 :: rest => (((b0 * 256 + b1) * 256 + b2) * 256 + b3) :: bytesToWords rest
  | _ => []

/-- Big-endian bytes of the 64-bit message bit length. -/
def lengthBytes (byteLen : Nat) : List Nat :=
  let bits := 8 * byteLen
  [bits / 2 ^ 56 % 256, bits / 2 ^ 48 % 256, bits / 2 ^ 40 % 256, bits / 2 ^ 32 % 256,
   bits / 2 ^ 24 % 256, bits / 2 ^ 16 % 256, bits / 2 ^ 8 % 256, bits % 256]

/-- SHA-256 padding: append 0x80, zeros to 56 mod 64, then the bit length. -/
def pad (msg : List Nat) : List Nat :=
  let zeros := (119 - msg.length % 64) % 64
  msg ++ [0x80] ++ List.replicate zeros 0 ++ lengthBytes msg.length

/-- Split a byte list into chunks of 64 bytes. -/
def chunks64 (l : List Nat) : List (List Nat) :=
  if h : l = [] then []
  else l.take 64 :: chunks64 (l.drop 64)
termination_by l.length
decreasing_by
  have h1 : 0 < l.length := List.length_pos.mpr h
  simp only [List.length_drop]
  omega

/-- Big-endian bytes of one 32-bit word. -/
def wordBytes (w : Nat) : List Nat :=
  [w / 2 ^ 24 % 256, w / 2 ^ 16 % 256, w / 2 ^ 8 % 256, w % 256]

/-- The 32 digest bytes of a final hash state. -/
def stateBytes (st : Hash8) : List Nat :=
  wordBytes st.a ++ wordBytes st.b ++ wordBytes st.c ++ wordBytes st.d ++
  wordBytes st.e ++ wordBytes st.f ++ wordBytes st.g ++ wordBytes st.h

/-- SHA-256 of a byte string, as 32 digest bytes. -/
def sha256 (msg : List Nat) : List Nat :=
  stateBytes ((chunks64 (pad msg)).foldl (fun h block => processBlock h (bytesToWords block)) initH)

/-- The sixteen lowercase hexadecimal digit characters. -/
def hexDigits : List Char :=
  ['0', '1', '2', '3', '4', '5', '6', '7', '8', '9'] ++ ['a', 'b', 'c', 'd', 'e', 'f']

/-- Lowercase hex character of a value below 16. -/
def hexChar (n : Nat) : Char := hexDigits.getD n '0'

/-- The two lowercase hex characters of one byte. -/
def byteHex (b : Nat) : List Char := [hexChar (b / 16 % 16), hexChar (b % 16)]

/-- UTF-8 encoding of one character (as str.encode does per code point). -/
def charUtf8 (c : Char) : List Nat :=
  let n := c.toNat
  if n < 0x80 then [n]
  else if n < 0x800 then [0xC0 + n / 64, 0x80 + n % 64]
  else if n < 0x10000 then [0xE0 + n / 4096, 0x80 + n / 64 % 64, 0x80 + n % 64]
  else [0xF0 + n / 262144, 0x80 + n / 4096 % 64, 0x80 + n / 64 % 64, 0x80 + n % 64]

/-- UTF-8 bytes of a string, modelling str.encode(). -/
def utf8Bytes (s : String) : List Nat := s.data.flatMap charUtf8

/-- Lowercase hexadecimal digest string, modelling hashlib hexdigest(). -/
def sha256Hex (s : String) : String := ⟨(sha256 (utf8Bytes s)).flatMap byteHex⟩

end Sha256

/-- Python string slicing s[:n]: the first n code points. -/
def strSlice (s : String) (n : Nat) : String := ⟨s.data.take n⟩

namespace StrOps

/-- Split a character list on a nonempty separator, scanning left to right
without overlaps; the fuel (the list length suffices) makes the recursion
structural so that concrete instances reduce in the kernel. -/
def splitChars (sep : List Char) : Nat → List Char → List (List Char)
  | _, [] => [[]]
  | 0, l => [l]
  | fuel + 1, c :: rest =>
    if sep ≠ [] ∧ sep.isPrefixOf (c :: rest) then
      [] :: splitChars sep fuel ((c :: rest).drop sep.length)
    else
      match splitChars sep fuel rest with
      | [] => [[c]]
      | h :: t => (c :: h) :: t

/-- str.split(sep) for a nonempty separator. -/
def strSplitOn (s sep : String) : List String :=
  (splitChars sep.data s.data.length s.data).map (fun l => ⟨l⟩)

/-- ASCII lowercasing, as applied to schemes and hostnames. -/
def strToLower (s : String) : String := ⟨s.data.map Char.toLower⟩

/-- str.startswith(p). -/
def strStartsWith (s p : String) : Bool := p.data.isPrefixOf s.data

/-- The numeric value of a nonempty all-digit character list. -/
def digitsToNat (l : List Char) : Option Nat :=
  if l = [] then none
  else if l.all Char.isDigit then some (l.foldl (fun n c => n * 10 + (c.toNat - 48)) 0)
  else none

/-- Python int(s) for the plain decimal forms the feeds carry: an optional
sign followed by digits. -/
def strToInt (s : String) : Option Int :=
  match s.data with
  | '-' :: rest => (digitsToNat rest).map (fun n => -(n : Int))
  | '+' :: rest => (digitsToNat rest).map (fun n => (n : Int))
  | l => (digitsToNat l).map (fun n => (n : Int))

/-- sep.join(parts). -/
def strIntercalate (sep : String) (l : List String) : String :=
  ⟨List.intercalate sep.data (l.map String.data)⟩

end StrOps

namespace MainApp

/-- A review record as handled by crawl_app_store_reviews in
src/crawl-service/main.py: the fields the merge reads are the author and
content entries of the review dict (review.get with default empty string). -/
structure PipelineReview where
  author : String
  content : String
deriving Repr, DecidableEq

/-- Source tag written into the review dict by the pipeline:
review / source = rss_api in phase 1, browser in phase 2. -/
inductive SourceTag where
  | rss_api
  | browser
deriving Repr, DecidableEq

/-- A review together with the source tag the pipeline assigned. -/
structure TaggedReview where
  review : PipelineReview
  source : SourceTag
deriving Repr, DecidableEq

/-- The deterministic per-review digest of main.py lines 405-406 and 442-443:
sha256 of author, a colon, and the first 100 characters of content;
first 16 hex characters of the hexdigest. -/
def reviewDigest (author content : String) : String :=
  strSlice (Sha256.sha256Hex (author ++ ":" ++ strSlice content 100)) 16

/-- Digest of a pipeline review record. -/
def digestOf (r : PipelineReview) : String := reviewDigest r.author r.content

/-- Python dict assignment d[k] = v on an insertion-ordered association list:
an existing key keeps its position and gets the new value, a new key is
appended at the end. -/
def dictAssign (m : List (String × TaggedReview)) (k : String) (v : TaggedReview) :
    List (String × TaggedReview) :=
  if m.any (fun p => p.1 = k) then
    m.map (fun p => if p.1 = k then (k, v) else p)
  else
    m ++ [(k, v)]

/-- Phase 1 of crawl_app_store_reviews: every RSS review is tagged rss_api and
assigned into the accumulator under its digest (unconditional dict assignment). -/
def feedPhase (rss : List PipelineReview) : List (String × TaggedReview) :=
  rss.foldl (fun acc r => dictAssign acc (digestOf r) ⟨r, .rss_api⟩) []

/-- Phase 2 of crawl_app_store_reviews: a browser review is inserted, tagged
browser, only when its digest is not yet a key of the accumulator. -/
def browserPhase (acc : List (String × TaggedReview)) (browserReviews : List PipelineReview) :
    List (String × TaggedReview) :=
  browserReviews.foldl
    (fun acc r =>
      if acc.any (fun p => p.1 = digestOf r) then acc
      else acc ++ [(digestOf r, ⟨r, .browser⟩)])
    acc

/-- The merged accumulator of the two-phase crawl. -/
def mergeReviews (rss browserReviews : List PipelineReview) : List (String × TaggedReview) :=
  browserPhase (feedPhase rss) browserReviews

/-- The emitted review list: accumulator values in insertion order, truncated
to max_reviews (list(all_reviews.values())[:max_reviews]). -/
def emittedReviews (rss browserReviews : List PipelineReview) (maxReviews : Nat) :
    List TaggedReview :=
  ((mergeReviews rss browserReviews).map Prod.snd).take maxReviews

end MainApp

namespace PyReviews

/-- One feed entry as read by the collector: presence of the im:rating key and
the label strings of the fields the collector extracts. -/
structure Entry where
  hasRating : Bool
  idLabel : String
  titleLabel : String
  contentLabel : String
  ratingLabel : String
  authorLabel : String
  versionLabel : String
  voteCountLabel : String
  voteSumLabel : String
deriving Repr, DecidableEq

/-- Outcome of one urlopen plus json.loads attempt inside fetch_json:
a parsed page with its HTTP status, an HTTPError with a code, a URLError
(connection failure or timeout), or a JSONDecodeError. -/
inductive UrlOutcome where
  | ok (entries : List Entry) (status : Nat)
  | httpError (code : Nat)
  | urlError
  | jsonError
deriving Repr, DecidableEq

/-- Result of fetch_json in src/api/py-reviews.py: the feed entries of the
returned dict (empty for the empty dict), the returned status code, how many
attempts were made, and the seconds slept between attempts. -/
structure FetchResult where
  entries : List Entry
  status : Nat
  attemptsMade : Nat
  sleeps : List Nat
deriving Repr, DecidableEq

/-- The attempt loop of fetch_json (py-reviews.py lines 47-67). k is the index
of the current attempt, fuel+1 the number of attempts still allowed; the loop
starts with k = 0 and three allowed attempts. An HTTP 429 returns ({}, 429)
at once; any other HTTPError, a URLError or a JSONDecodeError sleeps
1 * (attempt + 1) seconds and retries while attempt < max_retries - 1, and on
the last attempt returns ({}, code) respectively ({}, 0). -/
def fetchJsonAux (att : Nat → UrlOutcome) : Nat → Nat → FetchResult
  | k, 0 => ⟨[], 0, k, []⟩
  | k, fuel + 1 =>
    match att k with
    | .ok entries status => ⟨entries, status, k + 1, []⟩
    | .httpError code =>
      if code = 429 then ⟨[], 429, k + 1, []⟩
      else if fuel = 0 then ⟨[], code, k + 1, []⟩
      else
        let r := fetchJsonAux att (k + 1) fuel
        ⟨r.entries, r.status, r.attemptsMade, (k + 1) :: r.sleeps⟩
    | .urlError =>
      if fuel = 0 then ⟨[], 0, k + 1, []⟩
      else
        let r := fetchJsonAux att (k + 1) fuel
        ⟨r.entries, r.status, r.attemptsMade, (k + 1) :: r.sleeps⟩
    | .jsonError =>
      if fuel = 0 then ⟨[], 0, k + 1, []⟩
      else
        let r := fetchJsonAux att (k + 1) fuel
        ⟨r.entries, r.status, r.attemptsMade, (k + 1) :: r.sleeps⟩

/-- fetch_json of src/api/py-reviews.py with max_retries = 3, against an
oracle giving the outcome of each attempt. -/
def fetchJson (att : Nat → UrlOutcome) : FetchResult := fetchJsonAux att 0 3

/-- One collected review record of the streaming collector. -/
structure FeedReview where
  id : String
  title : String
  content : String
  rating : Int
  author : String
  version : String
  voteCount : Int
  voteSum : Int
  country : String
  sortSource : String
deriving Repr, DecidableEq

/-- Python int(s) with the collector's try/except fallback: the parsed
integer, or the default on a ValueError/TypeError. -/
def parseIntD (s : String) (d : Int) : Int := (StrOps.strToInt s).getD d

/-- The review dict built from one feed entry (py-reviews.py lines 165-176):
rating, vote_count and vote_sum are parsed with fallback 0, all other fields
are taken verbatim. -/
def buildReview (e : Entry) (country sortBy : String) : FeedReview :=
  ⟨e.idLabel, e.titleLabel, e.contentLabel, parseIntD e.ratingLabel 0,
   e.authorLabel, e.versionLabel, parseIntD e.voteCountLabel 0,
   parseIntD e.voteSumLabel 0, country, sortBy⟩

/-- Entry processing of one page (lines 142-184): entries without im:rating or
without an id label are skipped; every kept entry joins page_reviews; it joins
the cross-filter accumulator, keyed by its id, only when the id is new.
Returns (page_reviews, new accumulator, new_unique_count). -/
def processEntries (entries : List Entry) (country sortBy : String)
    (acc : List (String × FeedReview)) :
    List FeedReview × List (String × FeedReview) × Nat :=
  entries.foldl
    (fun st e =>
      let page := st.1
      let acc := st.2.1
      let newU := st.2.2
      if ¬ e.hasRating then (page, acc, newU)
      else if e.idLabel = "" then (page, acc, newU)
      else
        let r := buildReview e country sortBy
        if acc.any (fun p => p.1 = e.idLabel) then (page ++ [r], acc, newU)
        else (page ++ [r], acc ++ [(e.idLabel, r)], newU + 1))
    ([], acc, 0)

/-- The SSE events of the streaming collector, together with the sleeps it
performs (modelled as events so that timing claims are visible in the trace). -/
inductive SSEEvent where
  | start (filters totalTargetReviews : Nat)
  | throttle (filter : String) (page : Nat) (newDelayMultiplier : ℚ)
  | filterSkipped (filter : String)
  | progress (filter : String) (filterIndex page maxPages reviewsThisPage
      newUniqueThisPage filterReviewsTotal totalUnique : Nat) (nextDelayMs : Int)
  | filterEarlyStop (filter : String) (pagesCompleted : Nat)
  | filterTargetReached (filter : String) (target actual : Nat)
  | filterComplete (filter : String) (filterIndex reviewsCollected totalUniqueNow : Nat)
  | filterCooldown (nextFilter : String) (cooldownMs : Int)
  | sleep (seconds : ℚ)
  | complete (reviews : List FeedReview) (total : Nat)
deriving Repr, DecidableEq

/-- Environment of a run: the outcome of the n-th urlopen attempt against a
given URL, and the successive draws of random.uniform. -/
structure ScrapeEnv where
  attempts : Nat → String → UrlOutcome
  rand : Nat → ℚ

/-- Mutable state of scrape_reviews_streaming: the cross-filter accumulator,
the throttle multiplier, and the counters indexing the two oracles. -/
structure ScrapeState where
  allReviews : List (String × FeedReview)
  multiplier : ℚ
  attemptCtr : Nat
  randCtr : Nat
deriving Repr, DecidableEq

/-- get_stealth_delay (lines 34-39): the base delay when randomization is not
positive, otherwise the uniform draw supplied by the environment. Returns the
delay and the advanced random counter. -/
def stealthDelay (base randz : ℚ) (env : ScrapeEnv) (randCtr : Nat) : ℚ × Nat :=
  if randz ≤ 0 then (base, randCtr) else (env.rand randCtr, randCtr + 1)

/-- The feed URL of one page request (line 106). -/
def pageUrl (country appId sortBy : String) (page : Nat) : String :=
  "https://itunes.apple.com/" ++ country ++ "/rss/customerreviews/page=" ++
    toString page ++ "/id=" ++ appId ++ "/sortBy=" ++ sortBy ++ "/json"

/-- One fetch_json call within the run: consumes attempts from the global
attempt counter. -/
def callFetch (env : ScrapeEnv) (url : String) (st : ScrapeState) :
    FetchResult × ScrapeState :=
  let r := fetchJson (fun i => env.attempts (st.attemptCtr + i) url)
  (r, { st with attemptCtr := st.attemptCtr + r.attemptsMade })

/-- The 429 throttle update (line 113): double the multiplier, capped at 4.0. -/
def throttleStep (m : ℚ) : ℚ := min (m * 2) 4

/-- The filter-boundary relaxation (lines 251-252): multiply by 0.75 and floor
at 1.0, applied only when the multiplier exceeds 1.0. -/
def relaxStep (m : ℚ) : ℚ := if 1 < m then max 1 (m * (3 / 4)) else m

/-- The per-filter page loop (lines 105-229). Arguments after the
configuration: pages left, current page number, consecutive_empty,
filter_reviews_count, state. Returns the events of the loop, the state after
it, and the final filter_reviews_count. -/
def pageLoop (env : ScrapeEnv) (appId country sortBy : String) (filterIdx : Nat)
    (base randz : ℚ) (autoThrottle : Bool) (target maxPages : Nat) :
    Nat → Nat → Nat → Nat → ScrapeState → List SSEEvent × ScrapeState × Nat
  | 0, _page, _consecEmpty, filterCount, st => ([], st, filterCount)
  | pagesLeft + 1, page, consecEmpty, filterCount, st =>
    let url := pageUrl country appId sortBy page
    let (r1, st1) := callFetch env url st
    let ev1 := r1.sleeps.map (fun s => SSEEvent.sleep (s : ℚ))
    -- Rate-limit handling (lines 111-133): with autoThrottle the multiplier
    -- doubles (capped), the page is retried once after base * multiplier * 2
    -- seconds, and a second 429 skips the rest of the filter. Without
    -- autoThrottle the loop falls through with the empty dict of the first
    -- call. The tuple is (events so far, entries, state, filter skipped).
    match
      (if r1.status = 429 ∧ autoThrottle then
        let m2 := throttleStep st1.multiplier
        let st1b := { st1 with multiplier := m2 }
        let wait := base * m2 * 2
        let (r2, st2) := callFetch env url st1b
        let evRL := [SSEEvent.throttle sortBy page m2, SSEEvent.sleep wait] ++
          r2.sleeps.map (fun s => SSEEvent.sleep (s : ℚ))
        if r2.status = 429 then
          (ev1 ++ evRL ++ [SSEEvent.filterSkipped sortBy], [], st2, true)
        else (ev1 ++ evRL, r2.entries, st2, false)
      else (ev1, r1.entries, st1, false) :
        List SSEEvent × List Entry × ScrapeState × Bool) with
    | (evPre, entries, st2, skipped) =>
    if skipped then (evPre, st2, filterCount)
    else
      match processEntries entries country sortBy st2.allReviews with
      | (pageReviews, acc2, newUnique) =>
      let filterCount2 := if entries = [] then filterCount else filterCount + pageReviews.length
      let consec2 := if entries = [] then consecEmpty + 1 else 0
      match stealthDelay (base * st2.multiplier) randz env st2.randCtr with
      | (delay, randCtr2) =>
      let st3 := { st2 with allReviews := acc2, randCtr := randCtr2 }
      let evProg := [SSEEvent.progress sortBy filterIdx page maxPages
        pageReviews.length newUnique filterCount2 acc2.length (Int.floor (delay * 1000))]
      if consec2 ≥ 5 then
        (evPre ++ evProg ++ [SSEEvent.filterEarlyStop sortBy page], st3, filterCount2)
      else if filterCount2 ≥ target then
        (evPre ++ evProg ++ [SSEEvent.filterTargetReached sortBy target filterCount2],
         st3, filterCount2)
      else
        let evSleep := if page < maxPages then [SSEEvent.sleep delay] else []
        match pageLoop env appId country sortBy filterIdx base randz
          autoThrottle target maxPages pagesLeft (page + 1) consec2 filterCount2 st3 with
        | (evRest, stF, cntF) =>
        (evPre ++ evProg ++ evSleep ++ evRest, stF, cntF)

/-- One filter of the outer loop (lines 96-238): cap the target at 2000,
derive max_pages as min(ceil(target / 50), 40), run the page loop from
page 1, and emit filterComplete. -/
def runFilter (env : ScrapeEnv) (appId country : String) (base randz : ℚ)
    (autoThrottle : Bool) (filterIdx : Nat) (sortBy : String) (rawTarget : Nat)
    (st : ScrapeState) : List SSEEvent × ScrapeState :=
  let target := min rawTarget 2000
  let maxPages := min ((target + 49) / 50) 40
  let r := pageLoop env appId country sortBy filterIdx base randz autoThrottle
    target maxPages maxPages 1 0 0 st
  (r.1 ++ [SSEEvent.filterComplete sortBy filterIdx r.2.2 r.2.1.allReviews.length], r.2.1)

/-- A filter configuration: sort order and raw target count. -/
structure FilterCfg where
  sort : String
  target : Nat
deriving Repr, DecidableEq

/-- The loop over filters (lines 96-252) with the cooldown and multiplier
relaxation applied between two filters but not after the last. -/
def filtersLoop (env : ScrapeEnv) (appId country : String) (base randz cooldown : ℚ)
    (autoThrottle : Bool) : Nat → List FilterCfg → ScrapeState → List SSEEvent × ScrapeState
  | _idx, [], st => ([], st)
  | idx, f :: rest, st =>
    let r := runFilter env appId country base randz autoThrottle idx f.sort f.target st
    match rest with
    | [] => (r.1, r.2)
    | g :: _ =>
      let dl := stealthDelay cooldown randz env r.2.randCtr
      let st3 := { r.2 with randCtr := dl.2, multiplier := relaxStep r.2.multiplier }
      let r2 := filtersLoop env appId country base randz cooldown autoThrottle (idx + 1) rest st3
      (r.1 ++ [SSEEvent.filterCooldown g.sort (Int.floor (dl.1 * 1000)), SSEEvent.sleep dl.1]
        ++ r2.1, r2.2)

/-- Stealth settings after handler validation. -/
structure StealthCfg where
  baseDelay : ℚ
  randomization : ℚ
  filterCooldown : ℚ
  autoThrottle : Bool
deriving Repr, DecidableEq

/-- scrape_reviews_streaming (lines 70-283): the full event trace of a run and
the final collector state. The delay multiplier starts at 1.0; the start event
sums the raw filter targets; the complete event carries the accumulated unique
reviews in insertion order. -/
def scrapeReviewsStreaming (env : ScrapeEnv) (appId country : String)
    (filters : List FilterCfg) (stealth : StealthCfg) : List SSEEvent × ScrapeState :=
  let st0 : ScrapeState := ⟨[], 1, 0, 0⟩
  let startEv := SSEEvent.start filters.length (filters.foldl (fun s f => s + f.target) 0)
  let r := filtersLoop env appId country stealth.baseDelay stealth.randomization
    stealth.filterCooldown stealth.autoThrottle 0 filters st0
  (startEv :: r.1 ++ [SSEEvent.complete (r.2.allReviews.map Prod.snd) r.2.allReviews.length],
   r.2)

end PyReviews

namespace ReviewsApi

/-- Result of fetch_json in src/api/reviews.py: the entries of the returned
dict, the attempts made, and the seconds slept between attempts. This variant
returns no status code. -/
structure FetchResult where
  entries : List PyReviews.Entry
  attemptsMade : Nat
  sleeps : List Nat
deriving Repr, DecidableEq

/-- The attempt loop of fetch_json (reviews.py lines 16-28). HTTPError is a
subclass of URLError, so every HTTP error, connection failure, timeout and
JSONDecodeError takes the same branch: sleep 1 * (attempt + 1) seconds and
retry while attempt < max_retries - 1, else return the empty dict. -/
def fetchJsonAux (att : Nat → PyReviews.UrlOutcome) : Nat → Nat → FetchResult
  | k, 0 => ⟨[], k, []⟩
  | k, fuel + 1 =>
    match att k with
    | .ok entries _status => ⟨entries, k + 1, []⟩
    | _ =>
      if fuel = 0 then ⟨[], k + 1, []⟩
      else
        let r := fetchJsonAux att (k + 1) fuel
        ⟨r.entries, r.attemptsMade, (k + 1) :: r.sleeps⟩

/-- fetch_json of src/api/reviews.py with max_retries = 3. -/
def fetchJson (att : Nat → PyReviews.UrlOutcome) : FetchResult := fetchJsonAux att 0 3

end ReviewsApi

namespace MainApp

/-- Configuration of the in-process rate limiter of main.py lines 91-136. -/
structure MWConfig where
  requestsPerMinute : Nat
  burstLimit : Nat

/-- State of that limiter: per-client timestamp lists (defaultdict(list)). -/
structure MWState where
  requests : String → List ℚ

/-- RateLimiter._clean_old_requests (lines 101-106): keep timestamps strictly
newer than now minus the 60-second window. -/
def cleanOldRequests (reqs : List ℚ) (now : ℚ) : List ℚ :=
  reqs.filter (fun t => now - 60 < t)

/-- RateLimiter.is_allowed (lines 108-129): clean the client window, deny
with retry 5 when the burst window (last 5 seconds) is full, deny with a
computed retry when the minute window is full, otherwise record the request
and allow. Returns (allowed, retry_after, new state). -/
def isAllowed (cfg : MWConfig) (st : MWState) (clientId : String) (now : ℚ) :
    Bool × Int × MWState :=
  let cleaned := cleanOldRequests (st.requests clientId) now
  let st1 : MWState := ⟨fun c => if c = clientId then cleaned else st.requests c⟩
  let burstCount := (cleaned.filter (fun t => now - 5 < t)).length
  if burstCount ≥ cfg.burstLimit then (false, 5, st1)
  else if cleaned.length ≥ cfg.requestsPerMinute then
    let oldest := (cleaned.min?).getD now
    (false, max 1 (Int.floor (oldest + 60 - now) + 1), st1)
  else
    (true, 0, ⟨fun c => if c = clientId then cleaned ++ [now] else st.requests c⟩)

/-- Result of the middleware: the request is forwarded to the application, or
answered with the 429 rate-limit response. -/
inductive DispatchResult where
  | forwarded
  | rateLimited (retryAfter : Int)
deriving Repr, DecidableEq

/-- RateLimitMiddleware.dispatch (lines 142-165): requests whose path is
exactly /health or / are forwarded without consulting the limiter; all other
requests go through is_allowed and are answered 429 when denied. -/
def dispatch (cfg : MWConfig) (st : MWState) (path clientId : String) (now : ℚ) :
    DispatchResult × MWState :=
  if path = "/health" ∨ path = "/" then (.forwarded, st)
  else
    let r := isAllowed cfg st clientId now
    if r.1 then (.forwarded, r.2.2) else (.rateLimited r.2.1, r.2.2)

/-- Scheme and remainder of a URL, modelling urllib.parse.urlparse for
absolute URLs written scheme://rest; the scheme is lowercased, a URL without
the separator parses with an empty scheme. -/
def urlSplit (v : String) : String × String :=
  match StrOps.strSplitOn v "://" with
  | [] => ("", "")
  | [_s] => ("", v)
  | s :: rest => (StrOps.strToLower s, StrOps.strIntercalate "://" rest)

/-- The network location of the remainder: everything before the first of
/, ? or #. -/
def netlocOf (rest : String) : String :=
  (StrOps.strSplitOn (StrOps.strSplitOn (StrOps.strSplitOn rest "/").headI "?").headI "#").headI

/-- The hostname of a netloc, modelling urlparse().hostname: drop userinfo
before the last @, drop the port after the first colon, lowercase. -/
def hostnameOf (netloc : String) : String :=
  let l := StrOps.strSplitOn netloc "@"
  let afterUser := l.getLastD netloc
  StrOps.strToLower (StrOps.strSplitOn afterUser ":").headI

/-- One dotted-quad octet as accepted by ipaddress.ip_address: decimal digits
without leading zeros, value at most 255. -/
def parseOctet (s : String) : Option Nat :=
  match StrOps.digitsToNat s.data with
  | none => none
  | some n => if (s.length = 1 ∨ s.data.headI ≠ '0') ∧ n ≤ 255 then some n else none

/-- IPv4 literal parsing (the ipaddress.ip_address path of _is_internal_ip;
IPv6 literals are not modelled and fall through to the hostname check). -/
def parseIPv4 (s : String) : Option (Nat × Nat × Nat × Nat) :=
  match StrOps.strSplitOn s "." with
  | [a, b, c, d] =>
    match parseOctet a, parseOctet b, parseOctet c, parseOctet d with
    | some x, some y, some z, some w => some (x, y, z, w)
    | _, _, _, _ => none
  | _ => none

/-- IPv4Address.is_loopback: 127.0.0.0/8. -/
def ipv4Loopback (ip : Nat × Nat × Nat × Nat) : Bool := ip.1 = 127

/-- IPv4Address.is_link_local: 169.254.0.0/16. -/
def ipv4LinkLocal (ip : Nat × Nat × Nat × Nat) : Bool := ip.1 = 169 && ip.2.1 = 254

/-- IPv4Address.is_multicast: 224.0.0.0/4. -/
def ipv4Multicast (ip : Nat × Nat × Nat × Nat) : Bool := 224 ≤ ip.1 && ip.1 ≤ 239

/-- IPv4Address.is_reserved: 240.0.0.0/4. -/
def ipv4Reserved (ip : Nat × Nat × Nat × Nat) : Bool := 240 ≤ ip.1

/-- IPv4Address.is_private, modelled from the CPython ipaddress private
network registry for IPv4. -/
def ipv4Private (ip : Nat × Nat × Nat × Nat) : Bool :=
  ip.1 = 0 || ip.1 = 10 || ip.1 = 127 ||
  (ip.1 = 169 && ip.2.1 = 254) ||
  (ip.1 = 172 && 16 ≤ ip.2.1 && ip.2.1 ≤ 31) ||
  (ip.1 = 192 && ip.2.1 = 168) ||
  (ip.1 = 192 && ip.2.1 = 0 && ip.2.2.1 = 0) ||
  (ip.1 = 192 && ip.2.1 = 0 && ip.2.2.1 = 2) ||
  (ip.1 = 198 && (ip.2.1 = 18 || ip.2.1 = 19)) ||
  (ip.1 = 198 && ip.2.1 = 51 && ip.2.2.1 = 100) ||
  (ip.1 = 203 && ip.2.1 = 0 && ip.2.2.1 = 113) ||
  240 ≤ ip.1

/-- _is_internal_ip of main.py lines 191-206: parse the host as an IP literal
and test the five address-class predicates, else compare the lowercased host
against the internal hostname list. -/
def isInternalIp (host : String) : Bool :=
  match parseIPv4 host with
  | some ip =>
    ipv4Private ip || ipv4Loopback ip || ipv4Reserved ip || ipv4LinkLocal ip || ipv4Multicast ip
  | none =>
    ["localhost", "localhost.localdomain", "127.0.0.1", "::1"].contains (StrOps.strToLower host)

/-- The block-list of internal IP prefixes of main.py lines 236-241. -/
def internalPatterns : List String :=
  ["10.", "192.168.", "172.16.", "172.17.", "172.18.", "172.19.",
   "172.20.", "172.21.", "172.22.", "172.23.", "172.24.", "172.25.",
   "172.26.", "172.27.", "172.28.", "172.29.", "172.30.", "172.31.",
   "169.254.", "0.", "127."]

/-- host.startswith(pattern) over the block-list. -/
def matchesInternalPattern (host : String) : Bool :=
  internalPatterns.any (fun p => StrOps.strStartsWith host p)

/-- WebsiteCrawlRequest.validate_url (main.py lines 216-246): reject non-http
schemes, missing hostnames, internal IPs, and block-listed prefixes; return
the URL unchanged otherwise. The error value is the ValueError message. -/
def validateUrl (v : String) : Except String String :=
  let parsed := urlSplit v
  let scheme := parsed.1
  if ¬ (scheme = "http" ∨ scheme = "https") then
    .error "URL must use http or https scheme"
  else
    let host := hostnameOf (netlocOf parsed.2)
    if host = "" then .error "URL must have a valid hostname"
    else if isInternalIp host then
      .error "URLs pointing to internal/private IP addresses are not allowed"
    else if matchesInternalPattern host then
      .error "URLs pointing to internal/private IP addresses are not allowed"
    else .ok v

/-- Outcome of a request to the website-crawl endpoint: HTTP status, error
message of the JSON payload, and whether any outbound request was made. -/
structure WebsiteCrawlOutcome where
  status : Nat
  errorMsg : Option String
  outboundRequestMade : Bool
deriving Repr, DecidableEq

/-- Modelled from the spec: the HTTP transport layer (request parsing and the
mapping of request-validation failures to responses) is an external
collaborator outside src/. Per the spec, a validation failure yields HTTP 400
with a JSON error payload and the handler is never invoked, so no outbound
request is made; a valid request reaches the handler, which crawls outbound.
The validator itself is validateUrl above, translated from main.py. -/
def crawlWebsiteEndpoint (url : String) : WebsiteCrawlOutcome :=
  match validateUrl url with
  | .error msg => ⟨400, some msg, false⟩
  | .ok _ => ⟨200, none, true⟩

end MainApp

namespace RedditCrawl

/-- get_engagement_threshold of reddit.py lines 153-172, as a function of the
validated subscriber count (none when validation failed): the
(min_score, min_comments) pair. -/
def getEngagementThreshold (subscribers : Option Nat) : Int × Int :=
  match subscribers with
  | none => (5, 3)
  | some s =>
    if s < 10000 then (2, 1)
    else if s < 100000 then (5, 3)
    else if s < 1000000 then (10, 5)
    else (20, 10)

/-- A post as read from one search result page of the sweep. -/
structure RedditPost where
  id : String
  subreddit : String
  score : Int
  numComments : Int
deriving Repr, DecidableEq

/-- Phase B inner loop of crawl_deep_dive (reddit.py lines 390-427): skip
posts without an id or already accumulated, reject posts below both
thresholds, insert the rest keyed by post id. -/
def insertPosts (minScore minComments : Int) (acc : List (String × RedditPost))
    (posts : List RedditPost) : List (String × RedditPost) :=
  posts.foldl
    (fun acc p =>
      if p.id = "" then acc
      else if acc.any (fun q => q.1 = p.id) then acc
      else if p.score < minScore ∧ p.numComments < minComments then acc
      else acc ++ [(p.id, p)])
    acc

/-- The sweep over communities and topics (reddit.py lines 363-427): per
community the adaptive threshold (or the (5, 3) default when adaptive
thresholds are disabled), then one search per topic whose results go through
insertPosts. search gives the result page of one (community, topic) query. -/
def deepDiveSweep (search : String → String → List RedditPost)
    (subscribers : String → Option Nat) (adaptive : Bool)
    (communities topics : List String) : List (String × RedditPost) :=
  communities.foldl
    (fun acc c =>
      let th := if adaptive then getEngagementThreshold (subscribers c) else (5, 3)
      topics.foldl (fun acc t => insertPosts th.1 th.2 acc (search c t)) acc)
    []

end RedditCrawl

namespace RateLimiterUtil

/-- Configuration of utils/rate_limiter.py RateLimiter: global
requests_per_minute, optional per-domain limits, and the positive clock
granularity tick by which utcnow() advances past a sleep deadline (the source
relies on the real clock being strictly increasing between loop iterations). -/
structure RLConfig where
  requestsPerMinute : Nat
  perDomainRpm : String → Option Nat
  tick : ℚ

/-- State of the limiter: the global sliding window, the per-domain windows
(absent domains have the empty window), and the per-domain backoff deadline. -/
structure RLState where
  globalRequests : List ℚ
  domainRequests : String → List ℚ
  backoffUntil : String → Option ℚ

/-- _clean_old_requests (lines 62-66): pop from the left while the head is
strictly older than now minus the 60-second window. -/
def cleanOld (w : List ℚ) (now : ℚ) : List ℚ :=
  w.dropWhile (fun t => t < now - 60)

/-- One admission wait loop of acquire (the while over a full window): while
the window holds at least limit entries, sleep until the oldest entry leaves
the window and clean again. Each iteration advances the clock to at least
oldest + 60 plus the tick; fuel bounds the iterations (the window length
suffices since every iteration evicts at least the oldest entry). Returns the
window and the clock at loop exit. -/
def waitLoop (limit : Nat) (tick : ℚ) : Nat → List ℚ → ℚ → List ℚ × ℚ
  | 0, w, now => (w, now)
  | fuel + 1, w, now =>
    if w.length < limit then (w, now)
    else
      let oldest := w.headI
      let wake := max now (oldest + 60) + tick
      waitLoop limit tick fuel (cleanOld w wake) wake

/-- _extract_domain (lines 57-60): urlparse(url).netloc or url. -/
def extractDomain (url : String) : String :=
  let p := MainApp.urlSplit url
  let n := MainApp.netlocOf p.2
  if p.1 = "" then url else if n = "" then url else n

/-- RateLimiter.acquire (lines 68-140), single caller: honor a pending
backoff deadline, clean and wait on the global window, then clean and wait on
the domain window when the domain has a configured limit, and finally record
one timestamp in the global window and, when configured, the domain window.
Returns the new state and the clock at return. The concurrency semaphore is
not modelled (one caller). -/
def acquire (cfg : RLConfig) (st : RLState) (url : String) (now : ℚ) : RLState × ℚ :=
  let domain := extractDomain url
  let now1 := match st.backoffUntil domain with
    | some b => if now < b then b else now
    | none => now
  let backoff2 : String → Option ℚ := fun d => if d = domain then none else st.backoffUntil d
  let g1 := cleanOld st.globalRequests now1
  let gw := waitLoop cfg.requestsPerMinute cfg.tick g1.length g1 now1
  match cfg.perDomainRpm domain with
  | some dlim =>
    let d1 := cleanOld (st.domainRequests domain) gw.2
    let dw := waitLoop dlim cfg.tick d1.length d1 gw.2
    (⟨gw.1 ++ [dw.2],
      fun d => if d = domain then dw.1 ++ [dw.2] else st.domainRequests d,
      backoff2⟩, dw.2)
  | none =>
    (⟨gw.1 ++ [gw.2], st.domainRequests, backoff2⟩, gw.2)

/-- The number of window entries within the last 60 seconds before now. -/
def countWithin (w : List ℚ) (now : ℚ) : Nat :=
  (w.filter (fun t => now - 60 < t)).length

end RateLimiterUtil

namespace BrowserCrawler

/-- One review card as probed by the DOM-extraction script of
_extract_reviews (app_store_browser.py lines 383-481). The DOM and its
regular-expression probes are external inputs; the card carries their
results: the matched title text, the integer captured by the Stars pattern on
the stars aria-label (when a stars element matched), the integer captured on
the figure aria-label, the count of filled-star children, date, author and
content texts, and the digits captured from aria-labelledby. -/
structure ReviewCard where
  titleText : String
  starsAriaRating : Option Nat
  figureAriaRating : Option Nat
  filledStarCount : Nat
  dateText : String
  dateISO : String
  authorText : String
  contentText : String
  reviewIdMatch : Option String
deriving Repr, DecidableEq

/-- A review emitted by the extraction script. -/
structure BrowserReview where
  id : String
  date : String
  dateISO : String
  author : String
  content : String
  rating : Option Nat
  title : String
deriving Repr, DecidableEq

/-- The three-stage rating probe (lines 394-420): the stars aria-label match,
then, while the rating is still 0, the figure aria-label match, then the
filled-star count when it lies in 1..5. -/
def cardRating (card : ReviewCard) : Nat :=
  let r1 := match card.starsAriaRating with | some n => n | none => 0
  let r2 := if r1 = 0 then (match card.figureAriaRating with | some n => n | none => 0) else r1
  if r2 = 0 then
    (if 1 ≤ card.filledStarCount ∧ card.filledStarCount ≤ 5 then card.filledStarCount else 0)
  else r2

/-- Line 468: a rating in 1..5 is kept, anything else becomes null. -/
def validRating (r : Nat) : Option Nat := if 1 ≤ r ∧ r ≤ 5 then some r else none

/-- Processing of one card (lines 383-479): drop cards with empty or short
content, de-duplicate on the first 100 content characters against the seen
set, build the review with the id from aria-labelledby or the synthetic
fallback, the author defaulted to Anonymous, the content truncated to 5000
characters, and the validated rating. -/
def extractCard (nowMs index : Nat) (seen : List String) (card : ReviewCard) :
    Option BrowserReview × List String :=
  if card.contentText = "" ∨ card.contentText.length < 10 then (none, seen)
  else if seen.contains (strSlice card.contentText 100) then (none, seen)
  else
    (some ⟨(match card.reviewIdMatch with
        | some d => d
        | none => "browser_" ++ toString index ++ "_" ++ toString nowMs),
      card.dateText, card.dateISO,
      (if card.authorText = "" then "Anonymous" else card.authorText),
      strSlice card.contentText 5000, validRating (cardRating card), card.titleText⟩,
     seen ++ [strSlice card.contentText 100])

/-- The forEach over all cards with the shared seen set. -/
def extractReviews (nowMs : Nat) (cards : List ReviewCard) : List BrowserReview :=
  (cards.enum.foldl
    (fun st ic =>
      let r := extractCard nowMs ic.1 st.2 ic.2
      match r.1 with
      | some rv => (st.1 ++ [rv], r.2)
      | none => (st.1, r.2))
    ([], [])).1

end BrowserCrawler

/-!
Concrete scenarios used by counterexamples and witnesses.
-/

/-- Ten distinct well-formed feed entries sharing one page. -/
def c9Entries : List PyReviews.Entry :=
  (List.range 10).map (fun i =>
    ⟨true, "r" ++ toString i, "t", "content here", "5", "a", "1.0", "0", "0"⟩)

/-- A feed that returns the same ten reviews on every page of every filter. -/
def c9Env : PyReviews.ScrapeEnv :=
  ⟨fun _ _ => PyReviews.UrlOutcome.ok c9Entries 200, fun _ => 0⟩

/-- A streaming run with two filters, both with target 10, over that feed. -/
def c9Run : List PyReviews.SSEEvent × PyReviews.ScrapeState :=
  PyReviews.scrapeReviewsStreaming c9Env "100001" "us"
    [⟨"mostRecent", 10⟩, ⟨"mostHelpful", 10⟩] ⟨2, 0, 5, true⟩

/-- The (filter, reviewsThisPage, newUniqueThisPage, filterReviewsTotal)
summary of a progress event. -/
def progressSummary : PyReviews.SSEEvent → Option (String × Nat × Nat × Nat)
  | .progress f _fi _pg _mp rtp nu frt _tu _nd => some (f, rtp, nu, frt)
  | _ => none

/-- A feed entry whose rating label parses to 7, outside 1..5. -/
def c2Entry : PyReviews.Entry :=
  ⟨true, "x1", "t", "great app!!", "7", "auth", "1.0", "0", "0"⟩

/-- A feed returning that entry on the first page and empty pages after. -/
def c2Env : PyReviews.ScrapeEnv :=
  ⟨fun i _ => if i = 0 then PyReviews.UrlOutcome.ok [c2Entry] 200
    else PyReviews.UrlOutcome.ok [] 200, fun _ => 0⟩

/-- A streaming run over that feed. -/
def c2Run : List PyReviews.SSEEvent × PyReviews.ScrapeState :=
  PyReviews.scrapeReviewsStreaming c2Env "1" "us" [⟨"mostRecent", 500⟩] ⟨2, 0, 5, true⟩

/-- The review the run builds from that entry. -/
def c2BadReview : PyReviews.FeedReview := PyReviews.buildReview c2Entry "us" "mostRecent"

/-- A browser review card with a five-star aria-label and ordinary content. -/
def c2Card : BrowserCrawler.ReviewCard :=
  ⟨"Nice", some 5, none, 0, "2024-01-01", "2024-01-01", "bob",
   "this app is excellent", some "123"⟩

/-- The review the extraction script emits for that card. -/
def c2CardReview : BrowserCrawler.BrowserReview :=
  ⟨"123", "2024-01-01", "2024-01-01", "bob", "this app is excellent", some 5, "Nice"⟩

/-- A limiter configuration: global limit 30, limit 1 for domain d, tick 1. -/
def c6Cfg : RateLimiterUtil.RLConfig := ⟨30, fun d => if d = "d" then some 1 else none, 1⟩

/-- A limiter state with one old global timestamp and a full window for d. -/
def c6St : RateLimiterUtil.RLState :=
  ⟨[0], fun d => if d = "d" then [10] else [], fun _ => none⟩

/-- Every throttle event of a trace carries a delay multiplier within the
1.0 to 4.0 band. -/
def throttleBounded (evs : List PyReviews.SSEEvent) : Prop :=
  ∀ e ∈ evs, ∀ f p m, e = PyReviews.SSEEvent.throttle f p m → 1 ≤ m ∧ m ≤ 4

/-- A search oracle that honors restrict_sr: every returned post belongs to
the searched community. -/
def c5Search : String → String → List RedditCrawl.RedditPost :=
  fun c t => if t = "habit" then [⟨"p1", c, 8, 6⟩] else []

/-- Subscriber counts: productivity has 800000 subscribers. -/
def c5Subs : String → Option Nat :=
  fun c => if c = "productivity" then some 800000 else none

/-!
Theorems. Helper lemmas come first, then one theorem per claim with its
witness or counterexample.
-/

/-- C10: a request whose URL path is exactly /health or / is forwarded by the
rate-limiting middleware without reading or mutating the limiter state, so it
is never answered with the middleware 429 response. -/
theorem C10_health_bypasses_rate_limit (cfg : MainApp.MWConfig) (st : MainApp.MWState)
    (path clientId : String) (now : ℚ) (h : path = "/health" ∨ path = "/") :
    MainApp.dispatch cfg st path clientId now = (.forwarded, st) := by
  unfold MainApp.dispatch
  rw [if_pos h]

/-- Witness for C10 at path /health with a nonempty window. -/
theorem C10_health_bypasses_rate_limit_witness :
    (("/health" : String) = "/health" ∨ ("/health" : String) = "/") ∧
      MainApp.dispatch ⟨30, 10⟩ ⟨fun _ => [1, 2, 3]⟩ "/health" "9.9.9.9" 100 =
        (.forwarded, ⟨fun _ => [1, 2, 3]⟩) :=
  ⟨Or.inl rfl,
   C10_health_bypasses_rate_limit ⟨30, 10⟩ ⟨fun _ => [1, 2, 3]⟩ "/health" "9.9.9.9" 100
     (Or.inl rfl)⟩

/-- C7: the website-crawl validator rejects every URL whose scheme is not
http or https, or whose host is an internal IP per the address-class checks,
or whose host matches the private-prefix block-list; and the request
url = http://10.0.0.5/internal is answered 400 with the exact error message
and no outbound request is made (transport layer modelled from the spec). -/
theorem C7_ssrf_guard :
    (∀ v : String,
      (¬ ((MainApp.urlSplit v).1 = "http" ∨ (MainApp.urlSplit v).1 = "https") ∨
        MainApp.isInternalIp (MainApp.hostnameOf (MainApp.netlocOf (MainApp.urlSplit v).2)) = true ∨
        MainApp.matchesInternalPattern
          (MainApp.hostnameOf (MainApp.netlocOf (MainApp.urlSplit v).2)) = true) →
      ∃ msg, MainApp.validateUrl v = .error msg) ∧
    MainApp.crawlWebsiteEndpoint "http://10.0.0.5/internal" =
      ⟨400, some "URLs pointing to internal/private IP addresses are not allowed", false⟩ := by
  constructor
  · intro v h
    rcases h with h | h | h
    · simp only [MainApp.validateUrl]
      rw [if_pos h]
      exact ⟨_, rfl⟩
    · by_cases hs : (MainApp.urlSplit v).1 = "http" ∨ (MainApp.urlSplit v).1 = "https"
      · simp only [MainApp.validateUrl]
        rw [if_neg (not_not_intro hs)]
        by_cases hh : MainApp.hostnameOf (MainApp.netlocOf (MainApp.urlSplit v).2) = ""
        · rw [if_pos hh]; exact ⟨_, rfl⟩
        · rw [if_neg hh, if_pos h]; exact ⟨_, rfl⟩
      · simp only [MainApp.validateUrl]
        rw [if_pos hs]
        exact ⟨_, rfl⟩
    · by_cases hs : (MainApp.urlSplit v).1 = "http" ∨ (MainApp.urlSplit v).1 = "https"
      · simp only [MainApp.validateUrl]
        rw [if_neg (not_not_intro hs)]
        by_cases hh : MainApp.hostnameOf (MainApp.netlocOf (MainApp.urlSplit v).2) = ""
        · rw [if_pos hh]; exact ⟨_, rfl⟩
        · rw [if_neg hh]
          by_cases hi : MainApp.isInternalIp
              (MainApp.hostnameOf (MainApp.netlocOf (MainApp.urlSplit v).2)) = true
          · rw [if_pos hi]; exact ⟨_, rfl⟩
          · rw [if_neg hi, if_pos h]; exact ⟨_, rfl⟩
      · simp only [MainApp.validateUrl]
        rw [if_pos hs]
        exact ⟨_, rfl⟩
  · rfl

/-- Witness for C7 at a block-listed private address. -/
theorem C7_ssrf_guard_witness :
    (MainApp.isInternalIp
        (MainApp.hostnameOf (MainApp.netlocOf (MainApp.urlSplit "http://192.168.1.5/x").2))
      = true) ∧
    ∃ msg, MainApp.validateUrl "http://192.168.1.5/x" = .error msg :=
  ⟨by decide, C7_ssrf_guard.1 "http://192.168.1.5/x" (Or.inr (Or.inl (by decide)))⟩

/-- Attempt-count bounds for the fetch_json loop of py-reviews.py. -/
theorem fetchJsonAux_attempts (att : Nat → PyReviews.UrlOutcome) :
    ∀ fuel k, k ≤ (PyReviews.fetchJsonAux att k fuel).attemptsMade ∧
      (PyReviews.fetchJsonAux att k fuel).attemptsMade ≤ k + fuel ∧
      (0 < fuel → k < (PyReviews.fetchJsonAux att k fuel).attemptsMade) := by
  intro fuel
  induction fuel with
  | zero => intro k; simp [PyReviews.fetchJsonAux]
  | succ n ih =>
    intro k
    cases h : att k with
    | ok entries status => simp [PyReviews.fetchJsonAux, h]
    | httpError code =>
      by_cases hc : code = 429
      · simp [PyReviews.fetchJsonAux, h, hc]
      · by_cases hn : n = 0
        · simp [PyReviews.fetchJsonAux, h, hc, hn]
        · have h3 := ih (k + 1)
          simp only [PyReviews.fetchJsonAux, h, if_neg hc, if_neg hn]
          refine ⟨by omega, by omega, fun _ => by omega⟩
    | urlError =>
      by_cases hn : n = 0
      · simp [PyReviews.fetchJsonAux, h, hn]
      · have h3 := ih (k + 1)
        simp only [PyReviews.fetchJsonAux, h, if_neg hn]
        refine ⟨by omega, by omega, fun _ => by omega⟩
    | jsonError =>
      by_cases hn : n = 0
      · simp [PyReviews.fetchJsonAux, h, hn]
      · have h3 := ih (k + 1)
        simp only [PyReviews.fetchJsonAux, h, if_neg hn]
        refine ⟨by omega, by omega, fun _ => by omega⟩

/-- Attempt-count bound for the fetch_json loop of reviews.py. -/
theorem reviewsApi_fetchJsonAux_attempts (att : Nat → PyReviews.UrlOutcome) :
    ∀ fuel k, (ReviewsApi.fetchJsonAux att k fuel).attemptsMade ≤ k + fuel := by
  intro fuel
  induction fuel with
  | zero => intro k; simp [ReviewsApi.fetchJsonAux]
  | succ n ih =>
    intro k
    cases h : att k with
    | ok entries status => simp [ReviewsApi.fetchJsonAux, h]
    | httpError code =>
      by_cases hn : n = 0
      · simp [ReviewsApi.fetchJsonAux, h, hn]
      · have h3 := ih (k + 1)
        simp only [ReviewsApi.fetchJsonAux, h, if_neg hn]
        omega
    | urlError =>
      by_cases hn : n = 0
      · simp [ReviewsApi.fetchJsonAux, h, hn]
      · have h3 := ih (k + 1)
        simp only [ReviewsApi.fetchJsonAux, h, if_neg hn]
        omega
    | jsonError =>
      by_cases hn : n = 0
      · simp [ReviewsApi.fetchJsonAux, h, hn]
      · have h3 := ih (k + 1)
        simp only [ReviewsApi.fetchJsonAux, h, if_neg hn]
        omega

/-- One unfolding step of the py-reviews fetch_json loop on a non-429 HTTP
error with attempts left. -/
theorem fetchJsonAux_httpError_step (att : Nat → PyReviews.UrlOutcome) (k fuel c : Nat)
    (h : att k = .httpError c) (hc : ¬ c = 429) (hf : ¬ fuel = 0) :
    PyReviews.fetchJsonAux att k (fuel + 1) =
      ⟨(PyReviews.fetchJsonAux att (k + 1) fuel).entries,
       (PyReviews.fetchJsonAux att (k + 1) fuel).status,
       (PyReviews.fetchJsonAux att (k + 1) fuel).attemptsMade,
       (k + 1) :: (PyReviews.fetchJsonAux att (k + 1) fuel).sleeps⟩ := by
  simp only [PyReviews.fetchJsonAux, h, if_neg hc, if_neg hf]

/-- C3 counterexample: fetch_json answers an HTTP 429 by returning ({}, 429)
after a single attempt with no sleep and no backoff, and answers a non-429
4xx (404) by retrying twice with linear one- and two-second sleeps — both
contradicting the claimed disposition table. -/
theorem C3_counterexample :
    PyReviews.fetchJson (fun _ => .httpError 429) = ⟨[], 429, 1, []⟩ ∧
    ¬ 2 ≤ (PyReviews.fetchJson (fun _ => .httpError 429)).attemptsMade ∧
    (PyReviews.fetchJson (fun _ => .httpError 429)).sleeps = [] ∧
    PyReviews.fetchJson (fun _ => .httpError 404) = ⟨[], 404, 3, [1, 2]⟩ ∧
    ¬ (PyReviews.fetchJson (fun _ => .httpError 404)).attemptsMade = 1 :=
  ⟨rfl, by decide, rfl, rfl, by decide⟩

/-- C3 amended: each fetch_json call makes between 1 and 3 attempts. In
py-reviews.py, a 2xx page returns at once; HTTP 429 returns ({}, 429)
immediately without sleeping or retrying (throttling is left to the caller);
every other HTTP error — 4xx and 5xx alike — and every URL error, timeout or
JSON decode failure sleeps attempt + 1 seconds (linear, no jitter, no
per-origin backoff) and retries, returning ({}, last code) respectively
({}, 0) after the third attempt. In reviews.py, fetch_json retries every
failure, 429 and other 4xx included, the same way and returns {} with no
status after the third attempt. -/
theorem C3_amended_fetch_retry :
    (∀ att : Nat → PyReviews.UrlOutcome,
      1 ≤ (PyReviews.fetchJson att).attemptsMade ∧ (PyReviews.fetchJson att).attemptsMade ≤ 3) ∧
    (∀ (att : Nat → PyReviews.UrlOutcome) entries status, att 0 = .ok entries status →
      PyReviews.fetchJson att = ⟨entries, status, 1, []⟩) ∧
    (∀ att : Nat → PyReviews.UrlOutcome, att 0 = .httpError 429 →
      PyReviews.fetchJson att = ⟨[], 429, 1, []⟩) ∧
    (∀ (att : Nat → PyReviews.UrlOutcome) c, att 0 = .httpError c → c ≠ 429 →
      2 ≤ (PyReviews.fetchJson att).attemptsMade ∧
      (PyReviews.fetchJson att).sleeps.take 1 = [1]) ∧
    (∀ (att : Nat → PyReviews.UrlOutcome) c, (∀ k, att k = .httpError c) → c ≠ 429 →
      PyReviews.fetchJson att = ⟨[], c, 3, [1, 2]⟩) ∧
    (∀ att : Nat → PyReviews.UrlOutcome, (∀ k, att k = .urlError) →
      PyReviews.fetchJson att = ⟨[], 0, 3, [1, 2]⟩) ∧
    (∀ att : Nat → PyReviews.UrlOutcome, (∀ k, att k = .jsonError) →
      PyReviews.fetchJson att = ⟨[], 0, 3, [1, 2]⟩) ∧
    (∀ att : Nat → PyReviews.UrlOutcome, (ReviewsApi.fetchJson att).attemptsMade ≤ 3) ∧
    (∀ (att : Nat → PyReviews.UrlOutcome) c, (∀ k, att k = .httpError c) →
      ReviewsApi.fetchJson att = ⟨[], 3, [1, 2]⟩) := by
  refine ⟨?_, ?_, ?_, ?_, ?_, ?_, ?_, ?_, ?_⟩
  · intro att
    have h := fetchJsonAux_attempts att 3 0
    simp only [PyReviews.fetchJson]
    omega
  · intro att entries status h
    simp [PyReviews.fetchJson, PyReviews.fetchJsonAux, h]
  · intro att h
    simp [PyReviews.fetchJson, PyReviews.fetchJsonAux, h]
  · intro att c h hc
    have h2 := fetchJsonAux_attempts att 2 1
    have h4 := fetchJsonAux_httpError_step att 0 2 c h hc (by omega)
    norm_num at h4
    simp only [PyReviews.fetchJson, h4]
    exact ⟨by omega, rfl⟩
  · intro att c h hc
    simp [PyReviews.fetchJson, PyReviews.fetchJsonAux, h 0, h 1, h 2, hc]
  · intro att h
    simp [PyReviews.fetchJson, PyReviews.fetchJsonAux, h 0, h 1, h 2]
  · intro att h
    simp [PyReviews.fetchJson, PyReviews.fetchJsonAux, h 0, h 1, h 2]
  · intro att
    exact reviewsApi_fetchJsonAux_attempts att 3 0
  · intro att c h
    simp [ReviewsApi.fetchJson, ReviewsApi.fetchJsonAux, h 0, h 1, h 2]

/-- Witness for C3 amended: the all-429 oracle is answered in one attempt. -/
theorem C3_amended_fetch_retry_witness :
    ((fun _ : Nat => PyReviews.UrlOutcome.httpError 429) 0 = .httpError 429) ∧
      PyReviews.fetchJson (fun _ => .httpError 429) = ⟨[], 429, 1, []⟩ :=
  ⟨rfl, C3_amended_fetch_retry.2.2.1 (fun _ => .httpError 429) rfl⟩

/-- Bindings already in the accumulator survive insertPosts (first-seen wins). -/
theorem insertPosts_mem_mono (ms mc : Int) (posts : List RedditCrawl.RedditPost) :
    ∀ acc kv, kv ∈ acc → kv ∈ RedditCrawl.insertPosts ms mc acc posts := by
  induction posts with
  | nil => intro acc kv h; simpa [RedditCrawl.insertPosts] using h
  | cons p rest ih =>
    intro acc kv h
    simp only [RedditCrawl.insertPosts, List.foldl_cons] at *
    apply ih
    split_ifs
    · exact h
    · exact h
    · exact h
    · exact List.mem_append_left _ h

/-- Every binding produced by insertPosts satisfies a property holding on the
initial accumulator and on every accepted post. -/
theorem insertPosts_forall (P : String × RedditCrawl.RedditPost → Prop) (ms mc : Int)
    (posts : List RedditCrawl.RedditPost) :
    ∀ acc, (∀ kv ∈ acc, P kv) →
      (∀ p ∈ posts, ¬(p.score < ms ∧ p.numComments < mc) → P (p.id, p)) →
      ∀ kv ∈ RedditCrawl.insertPosts ms mc acc posts, P kv := by
  induction posts with
  | nil => intro acc hacc _ kv hm; exact hacc kv (by simpa [RedditCrawl.insertPosts] using hm)
  | cons p rest ih =>
    intro acc hacc hpost kv hm
    simp only [RedditCrawl.insertPosts, List.foldl_cons] at ih hm
    refine ih _ ?_ (fun q hq hr => hpost q (List.mem_cons_of_mem _ hq) hr) kv hm
    intro kv2 hkv2
    split_ifs at hkv2 with h1 h2 h3
    · exact hacc kv2 hkv2
    · exact hacc kv2 hkv2
    · exact hacc kv2 hkv2
    · rcases List.mem_append.mp hkv2 with h4 | h4
      · exact hacc kv2 h4
      · rw [List.mem_singleton.mp h4]
        exact hpost p (List.mem_cons_self _ _) h3

/-- insertPosts keeps the accumulator keys duplicate-free. -/
theorem insertPosts_nodup_keys (ms mc : Int) (posts : List RedditCrawl.RedditPost) :
    ∀ acc, ((acc.map Prod.fst).Nodup) →
      (((RedditCrawl.insertPosts ms mc acc posts).map Prod.fst).Nodup) := by
  induction posts with
  | nil => intro acc h; simpa [RedditCrawl.insertPosts] using h
  | cons p rest ih =>
    intro acc h
    simp only [RedditCrawl.insertPosts, List.foldl_cons] at ih ⊢
    apply ih
    split_ifs with h1 h2 h3
    · exact h
    · exact h
    · exact h
    · have h5 : ∀ q ∈ acc, ¬ q.1 = p.id := by
        intro q hq
        by_contra h6
        exact h2 (List.any_eq_true.mpr ⟨q, hq, by simp [h6]⟩)
      rw [List.map_append, List.nodup_append]
      refine ⟨h, List.nodup_singleton _, ?_⟩
      intro x hx
      rcases List.mem_map.mp hx with ⟨q, hq, h7⟩
      simp only [List.map_cons, List.map_nil, List.mem_singleton]
      intro h8
      exact h5 q hq (by rw [h7, h8])

/-- Property preservation through the topics fold of one community sweep. -/
theorem sweepTopics_forall (P : String × RedditCrawl.RedditPost → Prop)
    (search : String → String → List RedditCrawl.RedditPost) (c : String) (ms mc : Int) :
    ∀ (topics : List String) acc, (∀ kv ∈ acc, P kv) →
      (∀ t p, p ∈ search c t → ¬(p.score < ms ∧ p.numComments < mc) → P (p.id, p)) →
      ∀ kv ∈ topics.foldl (fun acc t => RedditCrawl.insertPosts ms mc acc (search c t)) acc,
        P kv := by
  intro topics
  induction topics with
  | nil => intro acc hacc _ kv hm; exact hacc kv (by simpa using hm)
  | cons t rest ih =>
    intro acc hacc hpost kv hm
    simp only [List.foldl_cons] at hm
    exact ih _ (insertPosts_forall P ms mc (search c t) acc hacc (fun p hp hr => hpost t p hp hr))
      hpost kv hm

/-- Key duplicate-freedom through the topics fold. -/
theorem sweepTopics_nodup (search : String → String → List RedditCrawl.RedditPost)
    (c : String) (ms mc : Int) :
    ∀ (topics : List String) acc, ((acc.map Prod.fst).Nodup) →
      (((topics.foldl (fun acc t => RedditCrawl.insertPosts ms mc acc (search c t)) acc).map
        Prod.fst).Nodup) := by
  intro topics
  induction topics with
  | nil => intro acc h; simpa using h
  | cons t rest ih =>
    intro acc h
    simp only [List.foldl_cons]
    exact ih _ (insertPosts_nodup_keys ms mc (search c t) acc h)

/-- C5: in the deep-dive sweep every accumulated post was accepted against
its community threshold — the adaptive subscriber table when adaptive
thresholds are on, (5, 3) otherwise — so it satisfies
score at least min_score or comment-count at least min_comments; posts are
keyed by their id, keys are duplicate-free, and existing bindings are never
overwritten (first-seen wins); the adaptive table maps subscriber counts
below 10000, 100000 and 1000000 to (2, 1), (5, 3) and (10, 5), and (20, 10)
above, with (5, 3) when validation failed or adaptive thresholds are off. -/
theorem C5_deep_dive_thresholds
    (search : String → String → List RedditCrawl.RedditPost)
    (subscribers : String → Option Nat) (adaptive : Bool)
    (communities topics : List String)
    (hsr : ∀ c t p, p ∈ search c t → p.subreddit = c) :
    (∀ kv ∈ RedditCrawl.deepDiveSweep search subscribers adaptive communities topics,
      kv.1 = kv.2.id ∧
      ((if adaptive then RedditCrawl.getEngagementThreshold (subscribers kv.2.subreddit)
        else (5, 3)).1 ≤ kv.2.score ∨
       (if adaptive then RedditCrawl.getEngagementThreshold (subscribers kv.2.subreddit)
        else (5, 3)).2 ≤ kv.2.numComments)) ∧
    ((RedditCrawl.deepDiveSweep search subscribers adaptive communities topics).map
      Prod.fst).Nodup ∧
    (∀ ms mc acc posts kv, kv ∈ acc → kv ∈ RedditCrawl.insertPosts ms mc acc posts) ∧
    (∀ s, s < 10000 → RedditCrawl.getEngagementThreshold (some s) = (2, 1)) ∧
    (∀ s, 10000 ≤ s → s < 100000 → RedditCrawl.getEngagementThreshold (some s) = (5, 3)) ∧
    (∀ s, 100000 ≤ s → s < 1000000 → RedditCrawl.getEngagementThreshold (some s) = (10, 5)) ∧
    (∀ s, 1000000 ≤ s → RedditCrawl.getEngagementThreshold (some s) = (20, 10)) ∧
    RedditCrawl.getEngagementThreshold none = (5, 3) := by
  have hmain : ∀ (cs : List String) acc,
      (∀ kv ∈ acc, (kv.1 = kv.2.id ∧
        ((if adaptive then RedditCrawl.getEngagementThreshold (subscribers kv.2.subreddit)
          else (5, 3)).1 ≤ kv.2.score ∨
         (if adaptive then RedditCrawl.getEngagementThreshold (subscribers kv.2.subreddit)
          else (5, 3)).2 ≤ kv.2.numComments))) →
      ((acc.map Prod.fst).Nodup) →
      (∀ kv ∈ cs.foldl (fun acc c =>
          let th := if adaptive then RedditCrawl.getEngagementThreshold (subscribers c)
            else (5, 3)
          topics.foldl (fun acc t => RedditCrawl.insertPosts th.1 th.2 acc (search c t)) acc)
          acc,
        (kv.1 = kv.2.id ∧
          ((if adaptive then RedditCrawl.getEngagementThreshold (subscribers kv.2.subreddit)
            else (5, 3)).1 ≤ kv.2.score ∨
           (if adaptive then RedditCrawl.getEngagementThreshold (subscribers kv.2.subreddit)
            else (5, 3)).2 ≤ kv.2.numComments))) ∧
      (((cs.foldl (fun acc c =>
          let th := if adaptive then RedditCrawl.getEngagementThreshold (subscribers c)
            else (5, 3)
          topics.foldl (fun acc t => RedditCrawl.insertPosts th.1 th.2 acc (search c t)) acc)
          acc).map Prod.fst).Nodup) := by
    intro cs
    induction cs with
    | nil => intro acc hacc hnd; exact ⟨by simpa using hacc, by simpa using hnd⟩
    | cons c rest ih =>
      intro acc hacc hnd
      simp only [List.foldl_cons]
      apply ih
      · intro kv hkv
        refine sweepTopics_forall _ search c _ _ topics acc hacc ?_ kv hkv
        intro t p hp hr
        have hsub := hsr c t p hp
        refine ⟨rfl, ?_⟩
        rw [hsub]
        rcases not_and_or.mp hr with h5 | h5
        · exact Or.inl (not_lt.mp h5)
        · exact Or.inr (not_lt.mp h5)
      · exact sweepTopics_nodup search c _ _ topics acc hnd
  have h0 := hmain communities [] (by simp) (by simp)
  refine ⟨h0.1, h0.2, fun ms mc acc posts kv h => insertPosts_mem_mono ms mc posts acc kv h,
    ?_, ?_, ?_, ?_, rfl⟩
  · intro s h
    simp only [RedditCrawl.getEngagementThreshold]
    rw [if_pos h]
  · intro s h1 h2
    simp only [RedditCrawl.getEngagementThreshold]
    rw [if_neg (by omega), if_pos h2]
  · intro s h1 h2
    simp only [RedditCrawl.getEngagementThreshold]
    rw [if_neg (by omega), if_neg (by omega), if_pos h2]
  · intro s h1
    simp only [RedditCrawl.getEngagementThreshold]
    rw [if_neg (by omega), if_neg (by omega), if_neg (by omega)]

/-- Witness for C5: one community with 800000 subscribers, threshold (10, 5),
and a post with score 8 and 6 comments accepted by the comment leg. -/
theorem C5_deep_dive_thresholds_witness :
    (∀ c t p, p ∈ c5Search c t → p.subreddit = c) ∧
    (∀ kv ∈ RedditCrawl.deepDiveSweep c5Search c5Subs true ["productivity"] ["habit"],
      kv.1 = kv.2.id ∧
      ((if true then RedditCrawl.getEngagementThreshold (c5Subs kv.2.subreddit)
        else (5, 3)).1 ≤ kv.2.score ∨
       (if true then RedditCrawl.getEngagementThreshold (c5Subs kv.2.subreddit)
        else (5, 3)).2 ≤ kv.2.numComments)) := by
  have hsr : ∀ c t p, p ∈ c5Search c t → p.subreddit = c := by
    intro c t p hp
    by_cases h : t = "habit"
    · simp [c5Search, h] at hp
      rw [hp]
    · simp [c5Search, h] at hp
  exact ⟨hsr, (C5_deep_dive_thresholds c5Search c5Subs true ["productivity"] ["habit"] hsr).1⟩

/-- Every binding of a dict after assignment satisfies a property holding on
all previous bindings and on the assigned pair. -/
theorem dictAssign_forall (P : String × MainApp.TaggedReview → Prop)
    (m : List (String × MainApp.TaggedReview)) (k : String) (v : MainApp.TaggedReview)
    (hm : ∀ kv ∈ m, P kv) (hv : P (k, v)) : ∀ kv ∈ MainApp.dictAssign m k v, P kv := by
  intro kv hkv
  unfold MainApp.dictAssign at hkv
  split_ifs at hkv with h1
  · rcases List.mem_map.mp hkv with ⟨p, hp, he⟩
    by_cases hpk : p.1 = k
    · rw [if_pos hpk] at he
      rw [← he]
      exact hv
    · rw [if_neg hpk] at he
      rw [← he]
      exact hm p hp
  · rcases List.mem_append.mp hkv with h2 | h2
    · exact hm kv h2
    · rw [List.mem_singleton.mp h2]
      exact hv

/-- The assigned key is present after a dict assignment. -/
theorem dictAssign_hasKey_self (m : List (String × MainApp.TaggedReview)) (k : String)
    (v : MainApp.TaggedReview) : ∃ p ∈ MainApp.dictAssign m k v, p.1 = k := by
  unfold MainApp.dictAssign
  split_ifs with h1
  · rcases List.any_eq_true.mp h1 with ⟨q, hq, hqk⟩
    simp only [decide_eq_true_eq] at hqk
    exact ⟨(k, v), List.mem_map.mpr ⟨q, hq, by rw [if_pos hqk]⟩, rfl⟩
  · exact ⟨(k, v), List.mem_append.mpr (Or.inr (List.mem_singleton.mpr rfl)), rfl⟩

/-- Keys present before a dict assignment stay present. -/
theorem dictAssign_key_mono (m : List (String × MainApp.TaggedReview)) (k d : String)
    (v : MainApp.TaggedReview) (h : ∃ p ∈ m, p.1 = d) :
    ∃ p ∈ MainApp.dictAssign m k v, p.1 = d := by
  rcases h with ⟨p, hp, hpd⟩
  unfold MainApp.dictAssign
  split_ifs with h1
  · by_cases hpk : p.1 = k
    · exact ⟨(k, v), List.mem_map.mpr ⟨p, hp, by rw [if_pos hpk]⟩, by rw [← hpd, hpk]⟩
    · exact ⟨p, List.mem_map.mpr ⟨p, hp, by rw [if_neg hpk]⟩, hpd⟩
  · exact ⟨p, List.mem_append.mpr (Or.inl hp), hpd⟩

/-- Every binding of the feed phase satisfies a property holding on the pairs
it assigns. -/
theorem feedPhase_forall (P : String × MainApp.TaggedReview → Prop)
    (rss : List MainApp.PipelineReview)
    (hnew : ∀ r ∈ rss, P (MainApp.digestOf r, ⟨r, .rss_api⟩)) :
    ∀ kv ∈ MainApp.feedPhase rss, P kv := by
  have hgen : ∀ (l : List MainApp.PipelineReview) acc,
      (∀ kv ∈ acc, P kv) → (∀ r ∈ l, P (MainApp.digestOf r, ⟨r, .rss_api⟩)) →
      ∀ kv ∈ l.foldl
        (fun acc r => MainApp.dictAssign acc (MainApp.digestOf r) ⟨r, .rss_api⟩) acc, P kv := by
    intro l
    induction l with
    | nil => intro acc hacc _ kv hkv; exact hacc kv (by simpa using hkv)
    | cons a rest ih =>
      intro acc hacc hl kv hkv
      simp only [List.foldl_cons] at hkv
      exact ih _ (dictAssign_forall P acc _ _ hacc (hl a (List.mem_cons_self _ _)))
        (fun r hr => hl r (List.mem_cons_of_mem _ hr)) kv hkv
  exact hgen rss [] (by simp) hnew

/-- The digest of every RSS review is a key of the feed-phase accumulator. -/
theorem feedPhase_hasKey (rss : List MainApp.PipelineReview) (d : String)
    (h : ∃ r ∈ rss, MainApp.digestOf r = d) :
    ∃ p ∈ MainApp.feedPhase rss, p.1 = d := by
  have hgen : ∀ (l : List MainApp.PipelineReview) acc,
      ((∃ p ∈ acc, p.1 = d) ∨ (∃ r ∈ l, MainApp.digestOf r = d)) →
      ∃ p ∈ l.foldl
        (fun acc r => MainApp.dictAssign acc (MainApp.digestOf r) ⟨r, .rss_api⟩) acc, p.1 = d := by
    intro l
    induction l with
    | nil =>
      intro acc hc
      rcases hc with hc | hc
      · simpa using hc
      · simp at hc
    | cons a rest ih =>
      intro acc hc
      simp only [List.foldl_cons]
      rcases hc with hc | hc
      · exact ih _ (Or.inl (dictAssign_key_mono acc _ d _ hc))
      · rcases hc with ⟨r, hr, hrd⟩
        rcases List.mem_cons.mp hr with h2 | h2
        · refine ih _ (Or.inl ?_)
          rw [h2] at hrd
          rw [← hrd]
          exact dictAssign_hasKey_self acc _ _
        · exact ih _ (Or.inr ⟨r, h2, hrd⟩)
  exact hgen rss [] (Or.inr h)

/-- A successful lookup returns a binding of the list under its key. -/
theorem lookup_mem_strings (m : List (String × MainApp.TaggedReview)) (d : String)
    (v : MainApp.TaggedReview) (h : m.lookup d = some v) : (d, v) ∈ m := by
  induction m with
  | nil => simp [List.lookup] at h
  | cons p rest ih =>
    rw [List.lookup] at h
    by_cases h2 : d == p.1
    · rw [h2] at h
      simp only [Option.some.injEq] at h
      have h3 : d = p.1 := eq_of_beq h2
      rcases p with ⟨a, b⟩
      simp only at h3 h
      rw [h3, ← h]
      exact List.mem_cons_self _ _
    · rw [Bool.not_eq_true] at h2
      rw [h2] at h
      exact List.mem_cons_of_mem _ (ih h)

/-- A present key makes lookup succeed. -/
theorem exists_lookup_of_key (m : List (String × MainApp.TaggedReview)) (d : String)
    (h : ∃ p ∈ m, p.1 = d) : ∃ v, m.lookup d = some v := by
  induction m with
  | nil => simp at h
  | cons p rest ih =>
    rw [List.lookup]
    by_cases h2 : d == p.1
    · exact ⟨p.2, by rw [h2]⟩
    · rw [Bool.not_eq_true] at h2
      rw [h2]
      rcases h with ⟨q, hq, hqd⟩
      rcases List.mem_cons.mp hq with h3 | h3
      · exfalso
        rw [h3] at hqd
        have h4 : ¬ d = p.1 := by simpa using h2
        exact h4 hqd.symm
      · exact ih ⟨q, h3, hqd⟩

/-- Appending bindings does not change lookups of keys already present. -/
theorem lookup_append_of_key (m m2 : List (String × MainApp.TaggedReview)) (d : String)
    (h : ∃ p ∈ m, p.1 = d) : (m ++ m2).lookup d = m.lookup d := by
  induction m with
  | nil => simp at h
  | cons p rest ih =>
    rw [List.cons_append, List.lookup, List.lookup]
    by_cases h2 : d == p.1
    · rw [h2]
    · rw [Bool.not_eq_true] at h2
      rw [h2]
      rcases h with ⟨q, hq, hqd⟩
      rcases List.mem_cons.mp hq with h3 | h3
      · exfalso
        rw [h3] at hqd
        have h4 : ¬ d = p.1 := by simpa using h2
        exact h4 hqd.symm
      · exact ih ⟨q, h3, hqd⟩

/-- The browser phase never changes the binding of a key that is already
present in the accumulator. -/
theorem browserPhase_lookup (bs : List MainApp.PipelineReview) :
    ∀ acc d, (∃ p ∈ acc, p.1 = d) →
      (MainApp.browserPhase acc bs).lookup d = acc.lookup d := by
  induction bs with
  | nil => intro acc d _; simp [MainApp.browserPhase]
  | cons b rest ih =>
    intro acc d h
    simp only [MainApp.browserPhase, List.foldl_cons] at ih ⊢
    by_cases h1 : acc.any (fun p => p.1 = MainApp.digestOf b)
    · rw [if_pos h1]
      exact ih acc d h
    · rw [if_neg h1]
      have h2 : ∃ p ∈ acc ++ [(MainApp.digestOf b,
          (⟨b, .browser⟩ : MainApp.TaggedReview))], p.1 = d := by
        rcases h with ⟨q, hq, hqd⟩
        exact ⟨q, List.mem_append.mpr (Or.inl hq), hqd⟩
      rw [ih _ d h2]
      exact lookup_append_of_key acc _ d h

/-- C4: when a digest is produced by both phases, the emitted review is the
feed-phase one — the feed phase assigns it first, the browser phase inserts
only absent digests, and the binding carries the feed-phase source tag. -/
theorem C4_feed_wins_dedup (rss browserReviews : List MainApp.PipelineReview) (d : String)
    (h : ∃ r ∈ rss, MainApp.digestOf r = d) :
    ∃ tr, (MainApp.mergeReviews rss browserReviews).lookup d = some tr ∧
      tr.source = .rss_api ∧ tr.review ∈ rss ∧ MainApp.digestOf tr.review = d := by
  have hkey : ∃ p ∈ MainApp.feedPhase rss, p.1 = d := feedPhase_hasKey rss d h
  have hlk : (MainApp.mergeReviews rss browserReviews).lookup d =
      (MainApp.feedPhase rss).lookup d :=
    browserPhase_lookup browserReviews (MainApp.feedPhase rss) d hkey
  obtain ⟨v, hv⟩ := exists_lookup_of_key (MainApp.feedPhase rss) d hkey
  have hmem := lookup_mem_strings (MainApp.feedPhase rss) d v hv
  have hP := feedPhase_forall
    (fun kv => kv.2.source = .rss_api ∧ MainApp.digestOf kv.2.review = kv.1 ∧ kv.2.review ∈ rss)
    rss (fun r hr => ⟨rfl, rfl, hr⟩) (d, v) hmem
  exact ⟨v, by rw [hlk, hv], hP.1, hP.2.2, hP.2.1⟩

/-- Witness for C4: a review present in both phases keeps the feed tag. -/
theorem C4_feed_wins_dedup_witness :
    (∃ r ∈ [(⟨"alice", "good app"⟩ : MainApp.PipelineReview)],
      MainApp.digestOf r = MainApp.digestOf ⟨"alice", "good app"⟩) ∧
    ∃ tr, (MainApp.mergeReviews [⟨"alice", "good app"⟩]
        [⟨"alice", "good app"⟩]).lookup (MainApp.digestOf ⟨"alice", "good app"⟩) = some tr ∧
      tr.source = .rss_api ∧ tr.review ∈ [(⟨"alice", "good app"⟩ : MainApp.PipelineReview)] ∧
      MainApp.digestOf tr.review = MainApp.digestOf ⟨"alice", "good app"⟩ :=
  ⟨⟨⟨"alice", "good app"⟩, List.mem_singleton.mpr rfl, rfl⟩,
   C4_feed_wins_dedup [⟨"alice", "good app"⟩] [⟨"alice", "good app"⟩]
     (MainApp.digestOf ⟨"alice", "good app"⟩)
     ⟨⟨"alice", "good app"⟩, List.mem_singleton.mpr rfl, rfl⟩⟩

/-- The hex character of any value is one of the sixteen hex digits. -/
theorem hexChar_mem (n : Nat) : Sha256.hexChar n ∈ Sha256.hexDigits := by
  unfold Sha256.hexChar
  by_cases h : n < Sha256.hexDigits.length
  · rw [List.getD_eq_getElem Sha256.hexDigits '0' h]
    exact List.getElem_mem h
  · rw [List.getD_eq_default Sha256.hexDigits '0' (by omega)]
    decide

/-- A SHA-256 digest always has 32 bytes. -/
theorem sha256_length (msg : List Nat) : (Sha256.sha256 msg).length = 32 := by
  simp [Sha256.sha256, Sha256.stateBytes, Sha256.wordBytes]

/-- Hex encoding doubles the byte count. -/
theorem flatMap_byteHex_length (bs : List Nat) :
    (bs.flatMap Sha256.byteHex).length = 2 * bs.length := by
  induction bs with
  | nil => simp
  | cons b rest ih =>
    simp only [List.flatMap_cons, List.length_append, ih, Sha256.byteHex, List.length_cons,
      List.length_nil, List.length_map]
    omega

/-- Every hexdigest has 64 characters. -/
theorem sha256Hex_length (s : String) : (Sha256.sha256Hex s).length = 64 := by
  show ((Sha256.sha256 (Sha256.utf8Bytes s)).flatMap Sha256.byteHex).length = 64
  rw [flatMap_byteHex_length, sha256_length]

/-- Length of a Python slice. -/
theorem strSlice_length (s : String) (n : Nat) : (strSlice s n).length = min n s.length := by
  show (s.data.take n).length = _
  rw [List.length_take]
  rfl

/-- The digest of two reviews agrees whenever the author and the first 100
content characters agree. -/
theorem digest_depends_only (r₁ r₂ : MainApp.PipelineReview) (h1 : r₁.author = r₂.author)
    (h2 : strSlice r₁.content 100 = strSlice r₂.content 100) :
    MainApp.digestOf r₁ = MainApp.digestOf r₂ := by
  simp only [MainApp.digestOf, MainApp.reviewDigest, h1, h2]

/-- C1: the de-duplication identity of the review pipeline is the review
digest: every accumulator key equals the digest of its review; the digest is
the first 16 hex characters of the SHA-256 hexdigest of
author ++ colon ++ content[:100]; it always has exactly 16 lowercase hex
characters; it depends only on the author and the first 100 content
characters; and two collector runs over equal extracted (author, content)
pairs assign equal identities (the hash is a pure function of the pair, not
process-keyed). -/
theorem C1_review_digest_sha256 :
    (∀ rss browserReviews : List MainApp.PipelineReview,
      ∀ kv ∈ MainApp.mergeReviews rss browserReviews, kv.1 = MainApp.digestOf kv.2.review) ∧
    (∀ a c : String, MainApp.reviewDigest a c =
      strSlice (Sha256.sha256Hex (a ++ ":" ++ strSlice c 100)) 16) ∧
    (∀ a c : String, (MainApp.reviewDigest a c).length = 16 ∧
      ∀ ch ∈ (MainApp.reviewDigest a c).data, ch ∈ Sha256.hexDigits) ∧
    (∀ r₁ r₂ : MainApp.PipelineReview, r₁.author = r₂.author →
      strSlice r₁.content 100 = strSlice r₂.content 100 →
      MainApp.digestOf r₁ = MainApp.digestOf r₂) ∧
    (∀ l₁ l₂ : List MainApp.PipelineReview,
      l₁.map (fun r => (r.author, strSlice r.content 100)) =
        l₂.map (fun r => (r.author, strSlice r.content 100)) →
      l₁.map MainApp.digestOf = l₂.map MainApp.digestOf) := by
  refine ⟨?_, fun a c => rfl, ?_, digest_depends_only, ?_⟩
  · intro rss browserReviews kv hkv
    have hfeed : ∀ kv ∈ MainApp.feedPhase rss, kv.1 = MainApp.digestOf kv.2.review :=
      feedPhase_forall (fun kv => kv.1 = MainApp.digestOf kv.2.review) rss (fun r _ => rfl)
    have hgen : ∀ (bs : List MainApp.PipelineReview) acc,
        (∀ kv ∈ acc, kv.1 = MainApp.digestOf kv.2.review) →
        ∀ kv ∈ MainApp.browserPhase acc bs, kv.1 = MainApp.digestOf kv.2.review := by
      intro bs
      induction bs with
      | nil => intro acc hacc kv hkv; exact hacc kv (by simpa [MainApp.browserPhase] using hkv)
      | cons b rest ih =>
        intro acc hacc kv hkv
        simp only [MainApp.browserPhase, List.foldl_cons] at ih hkv
        refine ih _ ?_ kv hkv
        intro kv2 hkv2
        split_ifs at hkv2
        · exact hacc kv2 hkv2
        · rcases List.mem_append.mp hkv2 with h4 | h4
          · exact hacc kv2 h4
          · rw [List.mem_singleton.mp h4]
    exact hgen browserReviews (MainApp.feedPhase rss) hfeed kv hkv
  · intro a c
    constructor
    · rw [MainApp.reviewDigest, strSlice_length, sha256Hex_length]
      decide
    · intro ch hch
      have h1 : ch ∈ (Sha256.sha256Hex (a ++ ":" ++ strSlice c 100)).data :=
        List.take_subset 16 _ hch
      have h2 : ch ∈ (Sha256.sha256 (Sha256.utf8Bytes
          (a ++ ":" ++ strSlice c 100))).flatMap Sha256.byteHex := h1
      rcases List.mem_flatMap.mp h2 with ⟨b, _, hb⟩
      simp only [Sha256.byteHex, List.mem_cons, List.mem_singleton,
        List.not_mem_nil, or_false] at hb
      rcases hb with hb | hb
      · rw [hb]; exact hexChar_mem _
      · rw [hb]; exact hexChar_mem _
  · intro l₁ l₂ h
    induction l₁ generalizing l₂ with
    | nil =>
      cases l₂ with
      | nil => rfl
      | cons b bs => simp at h
    | cons a as ih =>
      cases l₂ with
      | nil => simp at h
      | cons b bs =>
        simp only [List.map_cons, List.cons.injEq, Prod.mk.injEq] at h ⊢
        exact ⟨digest_depends_only a b h.1.1 h.1.2, ih bs h.2⟩

/-- Witness for C1: the digest of a concrete review equals itself under the
dependence clause, with both hypotheses discharged at a concrete input. -/
theorem C1_review_digest_sha256_witness :
    ((⟨"alice", "nice"⟩ : MainApp.PipelineReview).author =
      (⟨"alice", "nicety"⟩ : MainApp.PipelineReview).author ∨ True) ∧
    ((⟨"alice", "nice"⟩ : MainApp.PipelineReview).author =
      (⟨"alice", "nice"⟩ : MainApp.PipelineReview).author ∧
     strSlice (⟨"alice", "nice"⟩ : MainApp.PipelineReview).content 100 =
      strSlice (⟨"alice", "nice"⟩ : MainApp.PipelineReview).content 100) ∧
    MainApp.digestOf ⟨"alice", "nice"⟩ = MainApp.digestOf ⟨"alice", "nice"⟩ :=
  ⟨Or.inl rfl, ⟨rfl, rfl⟩,
   C1_review_digest_sha256.2.2.2.1 ⟨"alice", "nice"⟩ ⟨"alice", "nice"⟩ rfl rfl⟩

/-- C9: the per-filter target check counts the reviews fetched on the filter
pages, duplicates included: over a feed that repeats the same ten reviews,
both target-10 filters report target reached — the second one with zero new
unique reviews on its page — while the final unique count is 10, strictly
below the 20 summed targets. -/
theorem C9_target_counts_duplicates :
    PyReviews.SSEEvent.filterTargetReached "mostRecent" 10 10 ∈ c9Run.1 ∧
    PyReviews.SSEEvent.filterTargetReached "mostHelpful" 10 10 ∈ c9Run.1 ∧
    c9Run.1.filterMap progressSummary =
      [("mostRecent", 10, 10, 10), ("mostHelpful", 10, 0, 10)] ∧
    c9Run.2.allReviews.length = 10 ∧
    c9Run.2.allReviews.length < 10 + 10 :=
  ⟨by decide, by decide, by decide, by decide, by decide⟩

/-- C2 counterexample: the feed collector emits the rating-label parse
verbatim — an entry whose label reads 7 yields an emitted review with
rating 7, which is neither null nor in 1..5, in the complete-event payload. -/
theorem C2_counterexample :
    PyReviews.SSEEvent.complete [c2BadReview] 1 ∈ c2Run.1 ∧
    c2BadReview.rating = 7 ∧
    ¬ (1 ≤ c2BadReview.rating ∧ c2BadReview.rating ≤ 5) ∧
    c2BadReview.content = c2Entry.contentLabel :=
  ⟨by decide, by decide, by decide, rfl⟩

/-- Soundness of one card extraction: an emitted review has a null or 1..5
rating and content truncated to at most 5000 characters. -/
theorem extractCard_sound (nowMs index : Nat) (seen : List String)
    (card : BrowserCrawler.ReviewCard) (r : BrowserCrawler.BrowserReview)
    (seen2 : List String)
    (h : BrowserCrawler.extractCard nowMs index seen card = (some r, seen2)) :
    (r.rating = none ∨ ∃ n, r.rating = some n ∧ 1 ≤ n ∧ n ≤ 5) ∧
      r.content.length ≤ 5000 := by
  unfold BrowserCrawler.extractCard at h
  by_cases hg : card.contentText = "" ∨ card.contentText.length < 10
  · rw [if_pos hg] at h
    simp at h
  · rw [if_neg hg] at h
    by_cases hc : seen.contains (strSlice card.contentText 100) = true
    · rw [if_pos hc] at h
      simp at h
    · rw [if_neg hc] at h
      simp only [Prod.mk.injEq, Option.some.injEq] at h
      rw [← h.1]
      refine ⟨?_, ?_⟩
      · show (BrowserCrawler.validRating (BrowserCrawler.cardRating card) = none ∨
          ∃ n, BrowserCrawler.validRating (BrowserCrawler.cardRating card) = some n ∧
            1 ≤ n ∧ n ≤ 5)
        unfold BrowserCrawler.validRating
        split_ifs with h3
        · exact Or.inr ⟨_, rfl, h3.1, h3.2⟩
        · exact Or.inl rfl
      · show (strSlice card.contentText 5000).length ≤ 5000
        rw [strSlice_length]
        exact min_le_left _ _

/-- Soundness of the extraction fold. -/
theorem extractReviews_sound (nowMs : Nat) (cards : List BrowserCrawler.ReviewCard) :
    ∀ r ∈ BrowserCrawler.extractReviews nowMs cards,
      (r.rating = none ∨ ∃ n, r.rating = some n ∧ 1 ≤ n ∧ n ≤ 5) ∧
        r.content.length ≤ 5000 := by
  have hgen : ∀ (l : List (Nat × BrowserCrawler.ReviewCard))
      (init : List BrowserCrawler.BrowserReview × List String),
      (∀ r ∈ init.1, (r.rating = none ∨ ∃ n, r.rating = some n ∧ 1 ≤ n ∧ n ≤ 5) ∧
        r.content.length ≤ 5000) →
      ∀ r ∈ (l.foldl
        (fun st ic =>
          let rr := BrowserCrawler.extractCard nowMs ic.1 st.2 ic.2
          match rr.1 with
          | some rv => (st.1 ++ [rv], rr.2)
          | none => (st.1, rr.2))
        init).1,
        (r.rating = none ∨ ∃ n, r.rating = some n ∧ 1 ≤ n ∧ n ≤ 5) ∧
          r.content.length ≤ 5000 := by
    intro l
    induction l with
    | nil => intro init hinit r hr; exact hinit r hr
    | cons ic rest ih =>
      intro init hinit r hr
      simp only [List.foldl_cons] at hr
      refine ih _ ?_ r hr
      intro r2 hr2
      rcases hcase : (BrowserCrawler.extractCard nowMs ic.1 init.2 ic.2).1 with _ | rv
      · simp only [hcase] at hr2
        exact hinit r2 hr2
      · simp only [hcase] at hr2
        rcases List.mem_append.mp hr2 with h4 | h4
        · exact hinit r2 h4
        · rw [List.mem_singleton.mp h4]
          exact extractCard_sound nowMs ic.1 init.2 ic.2 rv
            (BrowserCrawler.extractCard nowMs ic.1 init.2 ic.2).2
            (by rw [← hcase])
  intro r hr
  exact hgen cards.enum ([], []) (by simp) r hr

/-- C2 amended: the feed collector emits the integer parse of the rating
label with 0 substituted on parse failure — no null substitution and no
range check — and the content verbatim with no truncation; the browser
extraction script is the component that substitutes null for ratings outside
1..5 and truncates content to 5000 characters. -/
theorem C2_amended_rating_content :
    (∀ (e : PyReviews.Entry) (country sortBy : String),
      (PyReviews.buildReview e country sortBy).rating = PyReviews.parseIntD e.ratingLabel 0 ∧
      (PyReviews.buildReview e country sortBy).content = e.contentLabel) ∧
    (∀ (nowMs : Nat) (cards : List BrowserCrawler.ReviewCard),
      ∀ r ∈ BrowserCrawler.extractReviews nowMs cards,
        (r.rating = none ∨ ∃ n, r.rating = some n ∧ 1 ≤ n ∧ n ≤ 5) ∧
          r.content.length ≤ 5000) :=
  ⟨fun e country sortBy => ⟨rfl, rfl⟩, extractReviews_sound⟩

/-- Witness for C2 amended at a concrete five-star card. -/
theorem C2_amended_rating_content_witness :
    (c2CardReview ∈ BrowserCrawler.extractReviews 0 [c2Card]) ∧
    ((c2CardReview.rating = none ∨ ∃ n, c2CardReview.rating = some n ∧ 1 ≤ n ∧ n ≤ 5) ∧
      c2CardReview.content.length ≤ 5000) :=
  ⟨by decide, C2_amended_rating_content.2 0 [c2Card] c2CardReview (by decide)⟩

/-- The throttle update keeps the multiplier within bounds. -/
theorem throttleStep_bounds (m : ℚ) (h1 : 1 ≤ m) :
    1 ≤ PyReviews.throttleStep m ∧ PyReviews.throttleStep m ≤ 4 := by
  unfold PyReviews.throttleStep
  exact ⟨le_min (by linarith) (by norm_num), min_le_right _ _⟩

/-- The relaxation keeps the multiplier within bounds. -/
theorem relaxStep_bounds (m : ℚ) (h1 : 1 ≤ m) (h2 : m ≤ 4) :
    1 ≤ PyReviews.relaxStep m ∧ PyReviews.relaxStep m ≤ 4 := by
  unfold PyReviews.relaxStep
  split_ifs with h
  · exact ⟨le_max_left _ _, max_le (by norm_num) (by linarith)⟩
  · exact ⟨h1, h2⟩

/-- For multipliers of at least 1, the relaxation is exactly the
multiply-by-0.75-floored-at-1 step of the claim. -/
theorem relaxStep_eq (m : ℚ) (h1 : 1 ≤ m) : PyReviews.relaxStep m = max 1 (m * (3 / 4)) := by
  unfold PyReviews.relaxStep
  split_ifs with h
  · rfl
  · have h2 : m = 1 := le_antisymm (not_lt.mp h) h1
    rw [h2]
    norm_num

/-- Bounded traces are closed under append. -/
theorem throttleBounded_append (l1 l2 : List PyReviews.SSEEvent)
    (h1 : throttleBounded l1) (h2 : throttleBounded l2) : throttleBounded (l1 ++ l2) := by
  intro e he
  rcases List.mem_append.mp he with h | h
  · exact h1 e h
  · exact h2 e h

/-- The empty trace is bounded. -/
theorem throttleBounded_nil : throttleBounded [] := by
  intro e he
  simp at he

/-- Sleep events mapped from fetch retries carry no multiplier. -/
theorem throttleBounded_sleepMap (l : List Nat) :
    throttleBounded (l.map (fun s => PyReviews.SSEEvent.sleep (s : ℚ))) := by
  intro e he f p m hm
  rcases List.mem_map.mp he with ⟨s, _, hs⟩
  rw [← hs] at hm
  exact absurd hm (by simp)

/-- A singleton trace of a non-throttle event is bounded. -/
theorem throttleBounded_singleton (x : PyReviews.SSEEvent)
    (hx : ∀ f p m, x = PyReviews.SSEEvent.throttle f p m → 1 ≤ m ∧ m ≤ 4) :
    throttleBounded [x] := by
  intro e he
  rw [List.mem_singleton.mp he]
  exact hx

/-- A possibly-empty stealth-sleep trace is bounded. -/
theorem throttleBounded_sleepOpt (c : Prop) [Decidable c] (q : ℚ) :
    throttleBounded (if c then [PyReviews.SSEEvent.sleep q] else []) := by
  split_ifs
  · exact throttleBounded_singleton _ (fun f p m hm => absurd hm (by simp))
  · exact throttleBounded_nil

/-- Sleep events of rational delays carry no multiplier. -/
theorem throttleBounded_sleepMapQ (l : List ℚ) :
    throttleBounded (List.map (fun s => PyReviews.SSEEvent.sleep s) l) := by
  intro e he f p m hm
  rcases List.mem_map.mp he with ⟨s, _, hs⟩
  rw [← hs] at hm
  exact absurd hm (by simp)

/-- Throttle events of a page loop stay within the 1..4 band and so does the
final multiplier, whenever the loop starts within the band. -/
theorem pageLoop_throttle_bounds (env : PyReviews.ScrapeEnv) (appId country sortBy : String)
    (filterIdx : Nat) (base randz : ℚ) (autoThrottle : Bool) (target maxPages : Nat) :
    ∀ pagesLeft page consecEmpty filterCount (st : PyReviews.ScrapeState),
      1 ≤ st.multiplier → st.multiplier ≤ 4 →
      throttleBounded (PyReviews.pageLoop env appId country sortBy filterIdx base randz
        autoThrottle target maxPages pagesLeft page consecEmpty filterCount st).1 ∧
      1 ≤ (PyReviews.pageLoop env appId country sortBy filterIdx base randz autoThrottle
        target maxPages pagesLeft page consecEmpty filterCount st).2.1.multiplier ∧
      (PyReviews.pageLoop env appId country sortBy filterIdx base randz autoThrottle
        target maxPages pagesLeft page consecEmpty filterCount st).2.1.multiplier ≤ 4 := by
  intro pagesLeft
  induction pagesLeft with
  | zero =>
    intro page consec cnt st h1 h2
    exact ⟨throttleBounded_nil, h1, h2⟩
  | succ n ih =>
    intro page consec cnt st h1 h2
    simp only [PyReviews.pageLoop]
    rcases hE1 : PyReviews.callFetch env (PyReviews.pageUrl country appId sortBy page) st
      with ⟨r1, st1⟩
    have hm1 : st1.multiplier = st.multiplier := by
      have h := congrArg (fun p => (Prod.snd p).multiplier) hE1
      simpa [PyReviews.callFetch] using h.symm
    have hc1' : 1 ≤ st1.multiplier := by rw [hm1]; exact h1
    have hc2' : st1.multiplier ≤ 4 := by rw [hm1]; exact h2
    simp only []
    rcases hE2 : PyReviews.callFetch env (PyReviews.pageUrl country appId sortBy page)
        { allReviews := st1.allReviews, multiplier := PyReviews.throttleStep st1.multiplier,
          attemptCtr := st1.attemptCtr, randCtr := st1.randCtr } with ⟨r2, st2⟩
    have hmt := throttleStep_bounds st1.multiplier hc1'
    have hm2 : st2.multiplier = PyReviews.throttleStep st1.multiplier := by
      have h := congrArg (fun p => (Prod.snd p).multiplier) hE2
      simpa [PyReviews.callFetch] using h.symm
    have hb1 : 1 ≤ st2.multiplier := by rw [hm2]; exact hmt.1
    have hb2 : st2.multiplier ≤ 4 := by rw [hm2]; exact hmt.2
    by_cases hc1 : r1.status = 429 ∧ autoThrottle = true
    · obtain ⟨hs1, hA⟩ := hc1
      subst hA
      by_cases hs2 : r2.status = 429
      · simp only [hs1, hs2, eq_self_iff_true, and_self, if_true, ite_true, ite_false]
        refine ⟨?_, hb1, hb2⟩
        repeat' apply throttleBounded_append
        all_goals
          first
          | exact throttleBounded_sleepMapQ _
          | (intro e he f p m hm
             fin_cases he <;>
               first
               | (cases hm; exact throttleStep_bounds _ hc1')
               | exact absurd hm (by simp))
      · simp only [hs1, hs2, eq_self_iff_true, and_self, if_true, ite_true, ite_false, if_false,
          Bool.false_eq_true]
        split_ifs <;>
          refine ⟨?_, ?_, ?_⟩ <;>
            first
            | exact hb1
            | exact hb2
            | (refine (ih _ _ _ _ ?_ ?_).2.1 <;> first | exact hb1 | exact hb2)
            | (refine (ih _ _ _ _ ?_ ?_).2.2 <;> first | exact hb1 | exact hb2)
            | ((repeat' apply throttleBounded_append) <;>
                first
                | exact throttleBounded_sleepMapQ _
                | exact throttleBounded_sleepOpt _ _
                | (refine (ih _ _ _ _ ?_ ?_).1 <;> first | exact hb1 | exact hb2)
                | (intro e he f p m hm
                   fin_cases he <;>
                     first
                     | (cases hm; exact throttleStep_bounds _ hc1')
                     | exact absurd hm (by simp)))
    · simp only [hc1, if_false, ite_false, eq_self_iff_true, if_true, ite_true,
        Bool.false_eq_true]
      split_ifs <;>
        refine ⟨?_, ?_, ?_⟩ <;>
          first
          | exact hc1'
          | exact hc2'
          | (refine (ih _ _ _ _ ?_ ?_).2.1 <;> first | exact hc1' | exact hc2')
          | (refine (ih _ _ _ _ ?_ ?_).2.2 <;> first | exact hc1' | exact hc2')
          | ((repeat' apply throttleBounded_append) <;>
              first
              | exact throttleBounded_sleepMapQ _
              | exact throttleBounded_sleepOpt _ _
              | (refine (ih _ _ _ _ ?_ ?_).1 <;> first | exact hc1' | exact hc2')
              | (intro e he f p m hm
                 fin_cases he <;>
                   first
                   | (cases hm; exact throttleStep_bounds _ hc1')
                   | exact absurd hm (by simp)))

/-- Multiplier bounds propagate through the filter loop with its cooldown
relaxation, and all throttle events stay in band. -/
theorem filtersLoop_throttle_bounds (env : PyReviews.ScrapeEnv) (appId country : String)
    (base randz cooldown : ℚ) (autoThrottle : Bool) :
    ∀ (filters : List PyReviews.FilterCfg) (idx : Nat) (st : PyReviews.ScrapeState),
      1 ≤ st.multiplier → st.multiplier ≤ 4 →
      throttleBounded (PyReviews.filtersLoop env appId country base randz cooldown
        autoThrottle idx filters st).1 ∧
      1 ≤ (PyReviews.filtersLoop env appId country base randz cooldown
        autoThrottle idx filters st).2.multiplier ∧
      (PyReviews.filtersLoop env appId country base randz cooldown
        autoThrottle idx filters st).2.multiplier ≤ 4 := by
  intro filters
  induction filters with
  | nil =>
    intro idx st h1 h2
    exact ⟨throttleBounded_nil, h1, h2⟩
  | cons f rest ih =>
    intro idx st h1 h2
    have hB := pageLoop_throttle_bounds env appId country f.sort idx base randz autoThrottle
      (min f.target 2000) (min ((min f.target 2000 + 49) / 50) 40)
      (min ((min f.target 2000 + 49) / 50) 40) 1 0 0 st h1 h2
    simp only [PyReviews.filtersLoop, PyReviews.runFilter]
    cases rest with
    | nil =>
      refine ⟨?_, hB.2.1, hB.2.2⟩
      refine throttleBounded_append _ _ hB.1 ?_
      intro e he f p m hm
      fin_cases he
      exact absurd hm (by simp)
    | cons g rest2 =>
      have hR := relaxStep_bounds _ hB.2.1 hB.2.2
      have hI := ih (idx + 1)
        { allReviews := (PyReviews.pageLoop env appId country f.sort idx base randz autoThrottle
            (min f.target 2000) (min ((min f.target 2000 + 49) / 50) 40)
            (min ((min f.target 2000 + 49) / 50) 40) 1 0 0 st).2.1.allReviews,
          multiplier := PyReviews.relaxStep (PyReviews.pageLoop env appId country f.sort idx
            base randz autoThrottle (min f.target 2000)
            (min ((min f.target 2000 + 49) / 50) 40)
            (min ((min f.target 2000 + 49) / 50) 40) 1 0 0 st).2.1.multiplier,
          attemptCtr := (PyReviews.pageLoop env appId country f.sort idx base randz autoThrottle
            (min f.target 2000) (min ((min f.target 2000 + 49) / 50) 40)
            (min ((min f.target 2000 + 49) / 50) 40) 1 0 0 st).2.1.attemptCtr,
          randCtr := (PyReviews.stealthDelay cooldown randz env
            (PyReviews.pageLoop env appId country f.sort idx base randz autoThrottle
              (min f.target 2000) (min ((min f.target 2000 + 49) / 50) 40)
              (min ((min f.target 2000 + 49) / 50) 40) 1 0 0 st).2.1.randCtr).2 }
        hR.1 hR.2
      refine ⟨?_, hI.2.1, hI.2.2⟩
      refine throttleBounded_append _ _ ?_ hI.1
      refine throttleBounded_append _ _ ?_ ?_
      · refine throttleBounded_append _ _ hB.1 ?_
        intro e he f p m hm
        fin_cases he
        exact absurd hm (by simp)
      · intro e he f p m hm
        fin_cases he <;> exact absurd hm (by simp)

/-- C8: in the streaming collector the delay multiplier stays within
[1.0, 4.0]: it starts at 1.0 (the empty-filter run ends with multiplier 1),
every throttle event of any run carries a multiplier in the band and the final
multiplier is in the band, the 429 update doubles the multiplier capping it at
4.0, and the filter-boundary relaxation multiplies by 0.75 flooring at 1.0. -/
theorem C8_throttle_multiplier_bounds (env : PyReviews.ScrapeEnv) (appId country : String)
    (filters : List PyReviews.FilterCfg) (stealth : PyReviews.StealthCfg) :
    throttleBounded (PyReviews.scrapeReviewsStreaming env appId country filters stealth).1 ∧
    1 ≤ (PyReviews.scrapeReviewsStreaming env appId country filters stealth).2.multiplier ∧
    (PyReviews.scrapeReviewsStreaming env appId country filters stealth).2.multiplier ≤ 4 ∧
    (PyReviews.scrapeReviewsStreaming env appId country [] stealth).2.multiplier = 1 ∧
    (∀ m : ℚ, PyReviews.throttleStep m = min (m * 2) 4) ∧
    (∀ m : ℚ, 1 ≤ m → PyReviews.relaxStep m = max 1 (m * (3 / 4))) := by
  have hF := filtersLoop_throttle_bounds env appId country stealth.baseDelay
    stealth.randomization stealth.filterCooldown stealth.autoThrottle filters 0
    ⟨[], 1, 0, 0⟩ (by norm_num) (by norm_num)
  refine ⟨?_, hF.2.1, hF.2.2, ?_, ?_, ?_⟩
  · simp only [PyReviews.scrapeReviewsStreaming]
    refine throttleBounded_append [_] _ ?_ ?_
    · intro e he f p m hm
      fin_cases he
      exact absurd hm (by simp)
    · refine throttleBounded_append _ _ hF.1 ?_
      intro e he f p m hm
      fin_cases he
      exact absurd hm (by simp)
  · simp [PyReviews.scrapeReviewsStreaming, PyReviews.filtersLoop]
  · intro m
    rfl
  · intro m h1
    exact relaxStep_eq m h1

/-- Witness for C8: the relaxation rule applied at multiplier 2. -/
theorem C8_throttle_multiplier_bounds_witness :
    1 ≤ (2 : ℚ) ∧ PyReviews.relaxStep 2 = max 1 (2 * (3 / 4)) :=
  ⟨by norm_num,
    (C8_throttle_multiplier_bounds c9Env "100001" "us" [] ⟨2, 0, 5, true⟩).2.2.2.2.2
      2 (by norm_num)⟩

/-- On a sorted window, _clean_old_requests evicts every entry strictly older
than now - 60 (dropping from the left reaches them all). -/
theorem cleanOld_evicted (w : List ℚ) (now : ℚ) (hs : List.Sorted (· ≤ ·) w) :
    ∀ t ∈ RateLimiterUtil.cleanOld w now, ¬ t < now - 60 := by
  induction w with
  | nil => intro t ht; simp [RateLimiterUtil.cleanOld] at ht
  | cons a w ih =>
    intro t ht
    rw [List.sorted_cons] at hs
    by_cases ha : a < now - 60
    · have he : RateLimiterUtil.cleanOld (a :: w) now = RateLimiterUtil.cleanOld w now := by
        simp [RateLimiterUtil.cleanOld, List.dropWhile_cons, ha]
      rw [he] at ht
      exact ih hs.2 t ht
    · have he : RateLimiterUtil.cleanOld (a :: w) now = a :: w := by
        simp [RateLimiterUtil.cleanOld, List.dropWhile_cons, ha]
      rw [he] at ht
      rcases List.mem_cons.mp ht with h | h
      · rw [h]; exact ha
      · intro hlt; exact ha (lt_of_le_of_lt (hs.1 t h) hlt)

/-- Cleaning preserves sortedness (it yields a sublist). -/
theorem cleanOld_sorted (w : List ℚ) (now : ℚ) (hs : List.Sorted (· ≤ ·) w) :
    List.Sorted (· ≤ ·) (RateLimiterUtil.cleanOld w now) :=
  List.Pairwise.sublist (List.dropWhile_sublist _) hs

/-- Cleaning a nonempty window at a time past the oldest entry's expiry
strictly shrinks it. -/
theorem cleanOld_shrinks (w : List ℚ) (wake : ℚ) (hw : w ≠ [])
    (hh : w.headI < wake - 60) :
    (RateLimiterUtil.cleanOld w wake).length < w.length := by
  cases w with
  | nil => exact absurd rfl hw
  | cons a t =>
    have he : RateLimiterUtil.cleanOld (a :: t) wake = RateLimiterUtil.cleanOld t wake := by
      simp only [List.headI] at hh
      simp [RateLimiterUtil.cleanOld, List.dropWhile_cons, hh]
    rw [he]
    have hl : (RateLimiterUtil.cleanOld t wake).length ≤ t.length :=
      (List.dropWhile_sublist _).length_le
    simp only [List.length_cons]
    omega

/-- Postcondition of one admission wait loop: given enough fuel, a positive
limit and tick, and a sorted window already cleaned at entry, the loop exits
at a no-earlier clock with a sorted window that is fully evicted at the exit
clock and strictly below the limit. -/
theorem waitLoop_spec (limit : Nat) (tick : ℚ) (hlim : 1 ≤ limit) (htick : 0 < tick) :
    ∀ fuel (w : List ℚ) (now : ℚ), w.length ≤ fuel → List.Sorted (· ≤ ·) w →
      (∀ t ∈ w, ¬ t < now - 60) →
      now ≤ (RateLimiterUtil.waitLoop limit tick fuel w now).2 ∧
      List.Sorted (· ≤ ·) (RateLimiterUtil.waitLoop limit tick fuel w now).1 ∧
      (∀ t ∈ (RateLimiterUtil.waitLoop limit tick fuel w now).1,
        ¬ t < (RateLimiterUtil.waitLoop limit tick fuel w now).2 - 60) ∧
      (RateLimiterUtil.waitLoop limit tick fuel w now).1.length < limit := by
  intro fuel
  induction fuel with
  | zero =>
    intro w now hf hs hc
    have hw : w = [] := List.length_eq_zero.mp (Nat.le_zero.mp hf)
    subst hw
    exact ⟨le_refl _, hs, hc, hlim⟩
  | succ n ih =>
    intro w now hf hs hc
    by_cases hlen : w.length < limit
    · simp only [RateLimiterUtil.waitLoop]
      rw [if_pos hlen]
      exact ⟨le_refl _, hs, hc, hlen⟩
    · have hw : w ≠ [] := by
        intro h
        rw [h] at hlen
        simp at hlen
        omega
      have hhead : w.headI < max now (w.headI + 60) + tick - 60 := by
        have := le_max_right now (w.headI + 60)
        linarith
      have hdrop := cleanOld_shrinks w (max now (w.headI + 60) + tick) hw hhead
      have hnow : now ≤ max now (w.headI + 60) + tick := by
        have := le_max_left now (w.headI + 60)
        linarith
      have hspec := ih (RateLimiterUtil.cleanOld w (max now (w.headI + 60) + tick))
        (max now (w.headI + 60) + tick) (by omega)
        (cleanOld_sorted _ _ hs)
        (cleanOld_evicted _ _ hs)
      simp only [RateLimiterUtil.waitLoop]
      rw [if_neg hlen]
      exact ⟨le_trans hnow hspec.1, hspec.2⟩

/-- C6 amended: when acquire(url) returns, the per-domain window of a
configured domain is fully evicted at the return clock and holds at most its
limit, the global window holds at most requests_per_minute entries within the
last 60 seconds, and full eviction of the global window is guaranteed when the
url's domain has no configured limit; a stale global entry can survive when a
configured domain forces a wait after the global pass. -/
theorem C6_amended_rate_window (cfg : RateLimiterUtil.RLConfig)
    (st : RateLimiterUtil.RLState) (url : String) (now : ℚ)
    (hrpm : 1 ≤ cfg.requestsPerMinute) (htick : 0 < cfg.tick)
    (hgs : List.Sorted (· ≤ ·) st.globalRequests)
    (hds : List.Sorted (· ≤ ·) (st.domainRequests (RateLimiterUtil.extractDomain url)))
    (hdl : ∀ dlim, cfg.perDomainRpm (RateLimiterUtil.extractDomain url) = some dlim →
      1 ≤ dlim) :
    RateLimiterUtil.countWithin
        (RateLimiterUtil.acquire cfg st url now).1.globalRequests
        (RateLimiterUtil.acquire cfg st url now).2 ≤ cfg.requestsPerMinute ∧
    (∀ dlim, cfg.perDomainRpm (RateLimiterUtil.extractDomain url) = some dlim →
      (∀ t ∈ (RateLimiterUtil.acquire cfg st url now).1.domainRequests
          (RateLimiterUtil.extractDomain url),
        ¬ t < (RateLimiterUtil.acquire cfg st url now).2 - 60) ∧
      ((RateLimiterUtil.acquire cfg st url now).1.domainRequests
          (RateLimiterUtil.extractDomain url)).length ≤ dlim) ∧
    (cfg.perDomainRpm (RateLimiterUtil.extractDomain url) = none →
      (∀ t ∈ (RateLimiterUtil.acquire cfg st url now).1.globalRequests,
        ¬ t < (RateLimiterUtil.acquire cfg st url now).2 - 60) ∧
      (RateLimiterUtil.acquire cfg st url now).1.globalRequests.length
        ≤ cfg.requestsPerMinute) := by
  set D := RateLimiterUtil.extractDomain url with hD
  set now1 : ℚ := (match st.backoffUntil D with
    | some b => if now < b then b else now
    | none => now) with hnow1
  set g1 := RateLimiterUtil.cleanOld st.globalRequests now1 with hg1def
  set gw := RateLimiterUtil.waitLoop cfg.requestsPerMinute cfg.tick g1.length g1 now1
    with hgwdef
  have hgw := waitLoop_spec cfg.requestsPerMinute cfg.tick hrpm htick g1.length g1 now1
    (le_refl _) (cleanOld_sorted _ _ hgs) (cleanOld_evicted _ _ hgs)
  rw [← hgwdef] at hgw
  rcases hd : cfg.perDomainRpm D with _ | dlim
  · simp only [RateLimiterUtil.acquire, ← hD, ← hnow1, ← hg1def, ← hgwdef, hd]
    refine ⟨?_, ?_, ?_⟩
    · refine le_trans (List.length_filter_le _ _) ?_
      rw [List.length_append]
      have := hgw.2.2.2
      simp only [List.length_singleton]
      omega
    · intro dlim habs
      exact absurd habs (by simp)
    · intro _
      constructor
      · intro t ht
        rcases List.mem_append.mp ht with h | h
        · exact hgw.2.2.1 t h
        · rw [List.mem_singleton.mp h]
          intro hlt
          linarith
      · rw [List.length_append]
        have := hgw.2.2.2
        simp only [List.length_singleton]
        omega
  · set d1 := RateLimiterUtil.cleanOld (st.domainRequests D) gw.2 with hd1def
    set dw := RateLimiterUtil.waitLoop dlim cfg.tick d1.length d1 gw.2 with hdwdef
    have hdw := waitLoop_spec dlim cfg.tick (hdl dlim hd) htick d1.length d1 gw.2
      (le_refl _) (cleanOld_sorted _ _ hds) (cleanOld_evicted _ _ hds)
    rw [← hdwdef] at hdw
    simp only [RateLimiterUtil.acquire, ← hD, ← hnow1, ← hg1def, ← hgwdef, hd, ← hd1def,
      ← hdwdef]
    refine ⟨?_, ?_, ?_⟩
    · refine le_trans (List.length_filter_le _ _) ?_
      rw [List.length_append]
      have := hgw.2.2.2
      simp only [List.length_singleton]
      omega
    · intro dlim2 hd2
      injection hd2 with hd2
      subst hd2
      simp only [if_pos rfl, eq_self_iff_true, ite_true]
      constructor
      · intro t ht
        rcases List.mem_append.mp ht with h | h
        · exact hdw.2.2.1 t h
        · rw [List.mem_singleton.mp h]
          intro hlt
          linarith
      · rw [List.length_append]
        have := hdw.2.2.2
        simp only [List.length_singleton]
        omega
    · intro habs
      exact absurd habs (by simp)

/-- C6 counterexample: with a global limit of 30, a domain limit of 1 for d,
a global window [0] and a domain window [10], acquire("d") at clock 50 waits
on the domain window until clock 71 and returns with global window [0, 71]:
the entry 0 is older than 71 - 60 yet was never evicted, refuting the claim
that all stale global entries are gone when acquire returns. -/
theorem C6_counterexample :
    (RateLimiterUtil.acquire c6Cfg c6St "d" 50).2 = 71 ∧
    (RateLimiterUtil.acquire c6Cfg c6St "d" 50).1.globalRequests = [0, 71] ∧
    ∃ t ∈ (RateLimiterUtil.acquire c6Cfg c6St "d" 50).1.globalRequests,
      t < (RateLimiterUtil.acquire c6Cfg c6St "d" 50).2 - 60 := by
  have hdom : RateLimiterUtil.extractDomain "d" = "d" := rfl
  have h2 : (RateLimiterUtil.acquire c6Cfg c6St "d" 50).2 = 71 := by
    simp +decide only [RateLimiterUtil.acquire, hdom, c6Cfg, c6St]
    norm_num [RateLimiterUtil.cleanOld, RateLimiterUtil.waitLoop, List.dropWhile]
  have h1 : (RateLimiterUtil.acquire c6Cfg c6St "d" 50).1.globalRequests = [0, 71] := by
    simp +decide only [RateLimiterUtil.acquire, hdom, c6Cfg, c6St]
    norm_num [RateLimiterUtil.cleanOld, RateLimiterUtil.waitLoop, List.dropWhile]
  refine ⟨h2, h1, 0, ?_, ?_⟩
  · rw [h1]
    simp
  · rw [h2]
    norm_num

/-- Witness for the amended C6 at a fresh limiter with global limit 1. -/
theorem C6_amended_rate_window_witness :
    (1 ≤ (1 : Nat)) ∧
    RateLimiterUtil.countWithin
        (RateLimiterUtil.acquire ⟨1, fun _ => none, 1⟩ ⟨[], fun _ => [], fun _ => none⟩
          "u" 0).1.globalRequests
        (RateLimiterUtil.acquire ⟨1, fun _ => none, 1⟩ ⟨[], fun _ => [], fun _ => none⟩
          "u" 0).2 ≤ 1 :=
  ⟨by decide,
    (C6_amended_rate_window ⟨1, fun _ => none, 1⟩ ⟨[], fun _ => [], fun _ => none⟩
      "u" 0 (by decide) (by norm_num) List.sorted_nil List.sorted_nil (by simp)).1⟩
